import Mathlib

/-!
Shallow embedding of the FoodSafety-MS-KB extraction pipeline
(`extraction_processing/step1 … step6`) and proofs about it.

Python strings are modeled as Lean `String` (a wrapper around `List Char`);
the string operations the pipeline uses (`strip`, `lower`, `split`,
truthiness, `x or ""`) are defined below on the character-list level.
`Char.toLower` models Python `str.lower` on the ASCII fragment, and the
NFKC step of the deep cleaner is modeled on its full-width-to-ASCII
fragment.  JSON trees are modeled by a mutual inductive; JSON `null` and
a missing key are both modeled as `Option.none` where the code treats
them alike.
-/

/-- Whitespace recognized by Python `str.split` / `str.strip` (ASCII
whitespace plus the no-break space), as the cleaners use it. -/
def isPyWs (c : Char) : Bool :=
  c = ' ' || c = '\t' || c = '\n' || c = '\r' || c = '\x0b' || c = '\x0c' || c = '\u00A0'

/-- Characters `\n` and `\r`, the line breaks of the de-hyphenation regex. -/
def isNlChar (c : Char) : Bool :=
  c = '\n' || c = '\r'

/-- Strip of leading and trailing whitespace on a character list. -/
def stripList (l : List Char) : List Char :=
  ((l.dropWhile isPyWs).reverse.dropWhile isPyWs).reverse

/-- Python `str.strip()`. -/
def pyStrip (s : String) : String := String.mk (stripList s.data)

/-- Python `str.lower()` (ASCII fragment). -/
def pyLower (s : String) : String := String.mk (s.data.map Char.toLower)

/-- Python `str(x or "")` for an optional string `x`: `None` and `""` are
falsy, so both yield `""`. -/
def pyStr (o : Option String) : String := o.getD ""

/-- Python `str(x)` for an optional string `x`: `str(None) = "None"`. -/
def pyRepr (o : Option String) : String := o.getD "None"

/-- Python truthiness of an optional string (`None` and `""` are falsy). -/
def pyTruthy (o : Option String) : Bool := !decide (pyStr o = "")

/-- Python `x or y` on two optional strings. -/
def pyOr (a b : Option String) : Option String := if pyTruthy a then a else b

/-- Guard `cas and cas.lower() not in ['none', 'null']` used by steps 2
and 6 to decide that a field carries a real value. -/
def hasVal (s : String) : Prop :=
  ¬s = "" ∧ ¬pyLower s = "none" ∧ ¬pyLower s = "null"

instance (s : String) : Decidable (hasVal s) := by
  unfold hasVal; infer_instance

/-- Python `pat in hay` substring test. -/
def strContains (hay pat : String) : Bool := decide (pat.data <:+: hay.data)

/-! ### Step 1 (methods file): `MethodL1DeepCleaner.normalize_string` -/

/-- Per-character fragment of `unicodedata.normalize('NFKC', ·)`:
full-width forms U+FF01–U+FF5E fold to ASCII and the ideographic space
U+3000 folds to an ordinary space; other characters are left alone. -/
def nfkcChar (c : Char) : Char :=
  if 0xFF01 ≤ c.toNat ∧ c.toNat ≤ 0xFF5E then Char.ofNat (c.toNat - 0xFEE0)
  else if c.toNat = 0x3000 then ' '
  else c

/-- Primary composites of the modeled fragment of NFKC's canonical
composition: the combining acute accent U+0301 composes with a
preceding base letter `a` or `e` into the precomposed U+00E1 / U+00E9;
no other pair of the fragment has a primary composite. -/
def composePair (b m : Char) : Option Char :=
  if b = 'a' ∧ m = '\u0301' then some '\u00E1'
  else if b = 'e' ∧ m = '\u0301' then some '\u00E9'
  else none

/-- Canonical composition pass of NFKC on a character list: a base
character directly followed by a combining mark it has a primary
composite with is replaced by that composite (any intervening character
blocks the composition, as the blocked pair has combining class 0 in
between).  Fuel-driven; one unit per consumed character suffices. -/
def composeGo : Nat → List Char → List Char
  | 0, l => l
  | _ + 1, [] => []
  | _ + 1, [c] => [c]
  | f + 1, b :: m :: rest =>
    match composePair b m with
    | some c => composeGo f (c :: rest)
    | none => b :: composeGo f (m :: rest)

/-- Canonical composition of a whole character list. -/
def composeList (l : List Char) : List Char := composeGo l.length l

/-- Step 1 of `normalize_string`: Unicode compatibility normalization,
per-character compatibility folding followed by canonical
composition. -/
def nfkc (s : String) : String := String.mk (composeList (s.data.map nfkcChar))

/-- Word characters of the regex class `\w` (ASCII fragment). -/
def isWordChar (c : Char) : Bool := c.isAlphanum || c = '_'

/-- Attempt to match `-\s*[\n\r]+\s*(\w)` at the head of the list, the
tail of the de-hyphenation pattern `(\w)-\s*[\n\r]+\s*(\w)`.  On success
it returns the trailing word character and the rest of the input after
the match. -/
def tryHyph : List Char → Option (Char × List Char)
  | [] => none
  | c0 :: rest =>
    if c0 = '-' then
      if (rest.takeWhile isPyWs).any isNlChar then
        match rest.dropWhile isPyWs with
        | c :: tail => if isWordChar c then some (c, tail) else none
        | [] => none
      else none
    else none

/-- Left-to-right, non-overlapping application of the substitution
`re.sub(r'(\w)-\s*[\n\r]+\s*(\w)', r'\1\2', ·)`, with fuel (one unit per
consumed character suffices). -/
def dehyphGo : Nat → List Char → List Char
  | 0, l => l
  | _ + 1, [] => []
  | f + 1, c :: cs =>
    if isWordChar c then
      match tryHyph cs with
      | some (w2, rest) => c :: w2 :: dehyphGo f rest
      | none => c :: dehyphGo f cs
    else c :: dehyphGo f cs

/-- Step 2 of `normalize_string`: de-hyphenation of line-broken words. -/
def dehyphList (l : List Char) : List Char := dehyphGo l.length l

/-- Step 3 of `normalize_string`: replacement of the no-break space
U+00A0 by an ordinary space and removal of the zero-width space U+200B. -/
def invisList (l : List Char) : List Char :=
  l.filterMap fun c =>
    if c = '\u200B' then none else if c = '\u00A0' then some ' ' else some c

/-- Words of a character list in the sense of Python `str.split()`:
maximal runs of non-whitespace characters (`cur` is the reversed current
word). -/
def wordsAux (cur : List Char) : List Char → List (List Char)
  | [] => if cur.isEmpty then [] else [cur.reverse]
  | c :: cs =>
    if isPyWs c then
      if cur.isEmpty then wordsAux [] cs else cur.reverse :: wordsAux [] cs
    else wordsAux (c :: cur) cs

/-- Step 4 of `normalize_string`: `" ".join(current.split())`. -/
def collapseList (l : List Char) : List Char :=
  List.intercalate [' '] (wordsAux [] l)

/-- The four rewriting steps of `normalize_string`, before the null
check. -/
def normSteps (s : String) : String :=
  String.mk (collapseList (invisList (dehyphList (composeList (s.data.map nfkcChar)))))

/-- `MethodL1DeepCleaner.normalize_string` on a string value: NFKC,
de-hyphenation, invisible-character cleanup, whitespace collapse, then
`if current.lower() in ['none', 'null', '']: return None`. -/
def normalize_string (s : String) : Option String :=
  let c := normSteps s
  if pyLower c = "none" ∨ pyLower c = "null" ∨ pyLower c = "" then none else some c

mutual
/-- JSON-like trees: the record values the cleaners recurse over.
`scalar` stands for any non-string, non-null leaf (number, boolean),
which every cleaner returns unchanged. -/
inductive JTree where
  | str : String → JTree
  | null : JTree
  | scalar : String → JTree
  | obj : JFields → JTree
  | arr : JList → JTree

/-- Lists of JSON trees. -/
inductive JList where
  | nil : JList
  | cons : JTree → JList → JList

/-- Key–value field lists of a JSON object. -/
inductive JFields where
  | nil : JFields
  | cons : String → JTree → JFields → JFields
end

mutual
/-- `MethodL1DeepCleaner.clean_dict`: recursive cleanup of a tree, with
`normalize_string` on string leaves (a textual null becomes JSON null). -/
def clean_dict : JTree → JTree
  | .str s =>
    match normalize_string s with
    | some t => .str t
    | none => .null
  | .null => .null
  | .scalar v => .scalar v
  | .obj fs => .obj (cleanDictFields fs)
  | .arr ls => .arr (cleanDictList ls)

/-- `clean_dict` on a list value. -/
def cleanDictList : JList → JList
  | .nil => .nil
  | .cons t ts => .cons (clean_dict t) (cleanDictList ts)

/-- `clean_dict` on the fields of an object value. -/
def cleanDictFields : JFields → JFields
  | .nil => .nil
  | .cons k v fs => .cons k (clean_dict v) (cleanDictFields fs)
end

/-- The string contains no combining mark of the modeled composition
fragment (the combining acute accent U+0301). -/
def markFree (s : String) : Bool := s.data.all fun c => decide (¬c = '\u0301')

mutual
/-- No string leaf of the tree contains a combining mark of the modeled
composition fragment. -/
def markFreeTree : JTree → Bool
  | .str s => markFree s
  | .null => true
  | .scalar _ => true
  | .obj fs => markFreeFields fs
  | .arr ls => markFreeList ls

/-- `markFreeTree` on a list value. -/
def markFreeList : JList → Bool
  | .nil => true
  | .cons t ts => markFreeTree t && markFreeList ts

/-- `markFreeTree` on the fields of an object value. -/
def markFreeFields : JFields → Bool
  | .nil => true
  | .cons _ v fs => markFreeTree v && markFreeFields fs
end

/-- String case of `clean_string_with_audit` (detections L1 cleaner):
`val.strip().replace('\n', ' ').replace('\t', ' ')` — no textual-null
conversion. -/
def cleanAuditStr (s : String) : String :=
  String.mk ((stripList s.data).map fun c =>
    if c = '\n' then ' ' else if c = '\t' then ' ' else c)

mutual
/-- `clean_string_with_audit` (detections L1 cleaner): recursive strip
and newline/tab replacement on string leaves; all other values pass
through unchanged. -/
def clean_string_with_audit : JTree → JTree
  | .str s => .str (cleanAuditStr s)
  | .null => .null
  | .scalar v => .scalar v
  | .obj fs => .obj (cleanAuditFields fs)
  | .arr ls => .arr (cleanAuditList ls)

/-- `clean_string_with_audit` on a list value. -/
def cleanAuditList : JList → JList
  | .nil => .nil
  | .cons t ts => .cons (clean_string_with_audit t) (cleanAuditList ts)

/-- `clean_string_with_audit` on the fields of an object value. -/
def cleanAuditFields : JFields → JFields
  | .nil => .nil
  | .cons k v fs => .cons k (clean_string_with_audit v) (cleanAuditFields fs)
end

mutual
/-- Check that no string leaf of a tree is a textual null
(case-insensitive `none`/`null` or the empty string). -/
def noNullTok : JTree → Bool
  | .str s => !decide (pyLower s = "none") && !decide (pyLower s = "null") && !decide (s = "")
  | .null => true
  | .scalar _ => true
  | .obj fs => noNullTokFields fs
  | .arr ls => noNullTokList ls

/-- `noNullTok` on a list value. -/
def noNullTokList : JList → Bool
  | .nil => true
  | .cons t ts => noNullTok t && noNullTokList ts

/-- `noNullTok` on the fields of an object value. -/
def noNullTokFields : JFields → Bool
  | .nil => true
  | .cons _ v fs => noNullTok v && noNullTokFields fs
end

/-! ### Step 2: `build_compounds_and_complete_data` -/

/-- One mass-spectrometry transition of a detection record (the fields
step 3 reads; `collision_energy` is outside every claim and omitted). -/
structure MSParam where
  precursor_mz : Option String
  product_mz : Option String
  polarity : Option String
  parameter_type : Option String
  source_ion_label : Option String
deriving DecidableEq

/-- One loosely-named performance parameter of a detection record. -/
structure PerfParam where
  parameter_name : Option String
  value : Option String
  unit : Option String
deriving DecidableEq

/-- Detection record shape shared by the L1/L2 stages: the two identity
fields, the fixed metadata fields, the two parameter lists and a map of
any further fields (`extra`), which no pipeline stage touches. -/
structure DRecord where
  CAS_number : Option String
  compound_english_name : Option String
  method_id : Option String
  run_config_id : Option String
  source_file : Option String
  mass_spec_params : List MSParam
  performance_parameters : List PerfParam
  extra : List (String × String)
deriving DecidableEq

/-- Gold (CAS, name) pair of one record, when both fields pass the
`has_cas` / `has_name` guard of step 2's scanning loop (both values
stripped, as the loop computes them). -/
def goldPair (r : DRecord) : Option (String × String) :=
  let cas := pyStrip (pyStr r.CAS_number)
  let name := pyStrip (pyStr r.compound_english_name)
  if hasVal cas ∧ hasVal name then some (cas, name) else none

/-- All gold pairs of a record list, in record order. -/
def goldPairs (l1 : List DRecord) : List (String × String) :=
  l1.filterMap goldPair

/-- Deduplication keeping the first occurrence (`seen` accumulates the
already-emitted elements). -/
def dedupFirstAux (seen : List String) : List String → List String
  | [] => []
  | x :: xs =>
    if x ∈ seen then dedupFirstAux seen xs else x :: dedupFirstAux (x :: seen) xs

/-- Deduplication keeping first occurrences; stands in for the Python
sets of step 2. -/
def dedupFirst (l : List String) : List String := dedupFirstAux [] l

/-- Set of CAS numbers observed together with (a case variant of) the
lowercase name `k`: the `name_to_cas` index of step 2. -/
def nameToCas (l1 : List DRecord) (k : String) : List String :=
  dedupFirst ((goldPairs l1).filterMap fun p => if pyLower p.2 = k then some p.1 else none)

/-- Set of names observed together with the CAS number `c`: the
`cas_to_names` index of step 2. -/
def casToNames (l1 : List DRecord) (c : String) : List String :=
  dedupFirst ((goldPairs l1).filterMap fun p => if p.1 = c then some p.2 else none)

/-- First element of minimal length, modelling `min(names_set, key=len)`
(the iteration order of a Python set is arbitrary; this model fixes
first-seen order). -/
def minLen : List String → Option String
  | [] => none
  | x :: xs => some (xs.foldl (fun a y => if y.length < a.length then y else a) x)

/-- Completion of one detection record against the identity-graph
indices (step 2's patching loop): fill a missing CAS when the lowercased
name resolves to exactly one CAS, and fill a missing name with the
shortest name observed for the record's CAS. -/
def complete_record (n2c c2n : String → List String) (r : DRecord) : DRecord :=
  let cas := pyStrip (pyStr r.CAS_number)
  let name := pyStrip (pyStr r.compound_english_name)
  let r1 :=
    if hasVal cas then r
    else
      match n2c (pyLower name) with
      | [c] => { r with CAS_number := some c }
      | _ => r
  if hasVal name then r1
  else
    match minLen (c2n cas) with
    | some n => { r1 with compound_english_name := some n }
    | none => r1

/-- The CompletionEngine: step 2's patching loop over the whole record
list, with both indices built from that same list. -/
def complete_records (l1 : List DRecord) : List DRecord :=
  l1.map (complete_record (nameToCas l1) (casToNames l1))

/-- CAS values of records that carry a CAS but no name (`cas_only_set`,
in first-occurrence order). -/
def casOnlyList (l1 : List DRecord) : List String :=
  dedupFirst (l1.filterMap fun r =>
    let cas := pyStrip (pyStr r.CAS_number)
    let name := pyStrip (pyStr r.compound_english_name)
    if hasVal cas ∧ ¬hasVal name then some cas else none)

/-- Names of records that carry a name but no CAS (`name_only_set`,
original case, in first-occurrence order). -/
def nameOnlyList (l1 : List DRecord) : List String :=
  dedupFirst (l1.filterMap fun r =>
    let cas := pyStrip (pyStr r.CAS_number)
    let name := pyStrip (pyStr r.compound_english_name)
    if hasVal name ∧ ¬hasVal cas then some name else none)

/-- Per-source CAS provenance attached by step 5. -/
structure Provenance where
  cas_from_doc : Option String
  cas_from_api : Option String
  cas_from_llm : Option String
deriving DecidableEq

/-- Optional chemical properties attached by step 5. -/
structure ChemProps where
  molecular_formula : Option String
  molecular_weight : Option String
  smiles : Option String
  pubchem_cid : Option String
  suggested_iupac : Option String
deriving DecidableEq

/-- Canonical compound record (`compounds.json` / `compounds_v2.json`).
Step 2 creates it with the first four fields; step 5 fills the rest. -/
structure CRecord where
  cas_number : Option String
  preferred_name : Option String
  synonyms : List String
  status : String
  cas_source : Option String
  provenance : Option Provenance
  chemical_properties : Option ChemProps
deriving DecidableEq

/-- Verified compounds from gold pairs (step 2, part 3.1): one per
distinct CAS, preferred name the shortest observed name, remaining
observed names as synonyms. -/
def verifiedGold (l1 : List DRecord) : List CRecord :=
  (dedupFirst ((goldPairs l1).map Prod.fst)).map fun cas =>
    let names := casToNames l1 cas
    let pref := (minLen names).getD ""
    { cas_number := some cas
      preferred_name := some pref
      synonyms := names.filter (· ≠ pref)
      status := "Verified"
      cas_source := none
      provenance := none
      chemical_properties := none }

/-- Verified compounds recovered from CAS-only records (step 2, part
3.2), with the placeholder name. -/
def verifiedCasOnly (l1 : List DRecord) : List CRecord :=
  ((casOnlyList l1).filter fun cas => ¬cas ∈ (goldPairs l1).map Prod.fst).map fun cas =>
    { cas_number := some cas
      preferred_name := some ("Unknown Compound (" ++ cas ++ ")")
      synonyms := []
      status := "Verified"
      cas_source := none
      provenance := none
      chemical_properties := none }

/-- Orphan compounds from name-only records (step 2, part 3.3): a name
already present among verified names is dropped, and orphans are
deduplicated by lowercase name (`seen`). -/
def orphansAux (verifiedLower : List String) (seen : List String) : List String → List CRecord
  | [] => []
  | n :: rest =>
    if pyLower n ∈ verifiedLower then orphansAux verifiedLower seen rest
    else if pyLower n ∈ seen then orphansAux verifiedLower seen rest
    else
      { cas_number := none
        preferred_name := some n
        synonyms := []
        status := "Orphan"
        cas_source := none
        provenance := none
        chemical_properties := none } :: orphansAux verifiedLower (pyLower n :: seen) rest

/-- Lowercased names of all gold pairs (`verified_names_lower`). -/
def verifiedNamesLower (l1 : List DRecord) : List String :=
  (goldPairs l1).map fun p => pyLower p.2

/-- Step 2's compound generation (`final_compounds`): verified compounds
from gold pairs, recovered CAS-only compounds, then orphans. -/
def build_compounds (l1 : List DRecord) : List CRecord :=
  verifiedGold l1 ++ verifiedCasOnly l1 ++ orphansAux (verifiedNamesLower l1) [] (nameOnlyList l1)

/-! ### Step 3: `L3MasterCleaner.process_records` -/

/-- Synonym table `key_mappings` promoting performance-parameter names
to fixed columns, in the source's insertion order. -/
def key_mappings : List (String × List String) :=
  [("RT_min", ["rt", "retention time", "relative_retention_time", "r.t."]),
   ("LOQ", ["loq", "limit of quantification", "lod", "detection_sensitivity", "concentration"]),
   ("Matrix_Tag", ["context", "matrix", "solvent", "group", "source"]),
   ("DP_V", ["dp", "declustering potential", "cone voltage"]),
   ("EP_V", ["ep", "entrance potential"]),
   ("CXP_V", ["cxp", "collision cell exit potential"]),
   ("FV_V", ["fv", "fragmentor voltage", "in-source fragmentation voltage", "source fragmentation voltage"])]

/-- Vocabulary `type_map` normalizing transition types. -/
def type_map : List (String × String) :=
  [("quantification", "Quant"), ("quant", "Quant"), ("定量", "Quant"),
   ("confirmation", "Qual"), ("qual", "Qual"), ("定性", "Qual")]

/-- Vocabulary `pol_map` normalizing polarities. -/
def pol_map : List (String × String) :=
  [("positive", "Pos"), ("pos", "Pos"), ("esi+", "Pos"), ("+", "Pos"), ("正", "Pos"),
   ("negative", "Neg"), ("neg", "Neg"), ("esi-", "Neg"), ("-", "Neg"), ("负", "Neg")]

/-- Promoted columns of one record: outer `none` means the column was
never set (the dict key is absent), `some v` means it was set to the
first matching parameter's raw value `v` (which may itself be null). -/
structure PromotedParams where
  rt : Option (Option String)
  loq : Option (Option String)
  matrix : Option (Option String)
  dp : Option (Option String)
  ep : Option (Option String)
  cxp : Option (Option String)
  fv : Option (Option String)
deriving DecidableEq

/-- Promoted columns with nothing set. -/
def emptyPromoted : PromotedParams :=
  { rt := none, loq := none, matrix := none, dp := none, ep := none, cxp := none, fv := none }

/-- Store a value under a promoted column name unless the column is
already set (`if target_col not in promoted_params`). -/
def setCol (pp : PromotedParams) (col : String) (v : Option String) : PromotedParams :=
  if col = "RT_min" then (if pp.rt.isNone then { pp with rt := some v } else pp)
  else if col = "LOQ" then (if pp.loq.isNone then { pp with loq := some v } else pp)
  else if col = "Matrix_Tag" then (if pp.matrix.isNone then { pp with matrix := some v } else pp)
  else if col = "DP_V" then (if pp.dp.isNone then { pp with dp := some v } else pp)
  else if col = "EP_V" then (if pp.ep.isNone then { pp with ep := some v } else pp)
  else if col = "CXP_V" then (if pp.cxp.isNone then { pp with cxp := some v } else pp)
  else if col = "FV_V" then (if pp.fv.isNone then { pp with fv := some v } else pp)
  else pp

/-- Value stored for an unpromoted parameter:
`f"{val} {unit}" if unit else str(val)`. -/
def otherParamVal (p : PerfParam) : String :=
  if pyTruthy p.unit then pyRepr p.value ++ " " ++ pyRepr p.unit else pyRepr p.value

/-- One step of the promotion loop over `performance_parameters`. -/
def promoteStep (acc : PromotedParams × List (Option String × String)) (p : PerfParam) :
    PromotedParams × List (Option String × String) :=
  let pName := pyStrip (pyLower (pyRepr p.parameter_name))
  match key_mappings.find? (fun kv => decide (pName ∈ kv.2)) with
  | some kv => (setCol acc.1 kv.1 p.value, acc.2)
  | none => (acc.1, acc.2 ++ [(p.parameter_name, otherParamVal p)])

/-- Promotion of a record's performance parameters into fixed columns
plus the residual `other_params` assignment list. -/
def promoteParams (perfs : List PerfParam) : PromotedParams × List (Option String × String) :=
  perfs.foldl promoteStep (emptyPromoted, [])

/-- Raw lowered polarity text of a transition
(`str(ms.get("polarity", "")).lower()`; JSON null prints as `"None"`). -/
def rawPol (ms : MSParam) : String := pyLower (pyRepr ms.polarity)

/-- Raw lowered type text of a transition
(`str(ms.get("parameter_type", "") or ms.get("source_ion_label", "")).lower()`). -/
def rawType (ms : MSParam) : String :=
  pyLower (pyRepr (pyOr ms.parameter_type ms.source_ion_label))

/-- Polarity normalization: keyword containment against `pol_map` with
default `"N/A"`, but a literal `'none'` becomes null. -/
def polNorm (raw : String) : Option String :=
  if raw = "none" then none
  else some (match pol_map.find? (fun kv => strContains raw kv.1) with
             | some kv => kv.2
             | none => "N/A")

/-- Type normalization: keyword containment against `type_map` with
default `"Target"`. -/
def typeNorm (raw : String) : String :=
  match type_map.find? (fun kv => strContains raw kv.1) with
  | some kv => kv.2
  | none => "Target"

/-- One row of the flattened master table (`Type_` models the dict key
`"Type"`, which is a keyword in Lean). -/
structure Row where
  Method_ID : Option String
  Run_ID : Option String
  Compound : Option String
  CAS : Option String
  Source_File : Option String
  RT_min : Option (Option String)
  LOQ : Option (Option String)
  Matrix_Tag : Option (Option String)
  DP_V : Option (Option String)
  EP_V : Option (Option String)
  CXP_V : Option (Option String)
  FV_V : Option (Option String)
  Precursor_mz : Option String
  Product_mz : Option String
  Polarity : Option String
  Type_ : String
  Other_Params : Option (List (Option String × String))
deriving DecidableEq

/-- Assembly of one output row from a record and one of its transitions. -/
def makeRow (rec : DRecord) (ms : MSParam) : Row :=
  let pp := promoteParams rec.performance_parameters
  { Method_ID := rec.method_id
    Run_ID := rec.run_config_id
    Compound := rec.compound_english_name
    CAS := rec.CAS_number
    Source_File := rec.source_file
    RT_min := pp.1.rt
    LOQ := pp.1.loq
    Matrix_Tag := pp.1.matrix
    DP_V := pp.1.dp
    EP_V := pp.1.ep
    CXP_V := pp.1.cxp
    FV_V := pp.1.fv
    Precursor_mz := ms.precursor_mz
    Product_mz := ms.product_mz
    Polarity := polNorm (rawPol ms)
    Type_ := typeNorm (rawType ms)
    Other_Params := if pp.2.isEmpty then none else some pp.2 }

/-- `L3MasterCleaner.process_records`: per record, skip when the
transition list is empty (`if not ms_list: continue`), otherwise emit
one row per transition. -/
def process_records (l2 : List DRecord) : List Row :=
  l2.flatMap fun rec =>
    match rec.mass_spec_params with
    | [] => []
    | _ => rec.mass_spec_params.map (makeRow rec)

/-! ### Step 4a: `query_pubchem_with_retry` -/

/-- Network outcome of one attempt of the PubChem lookup loop:
`raised` is a `requests.exceptions.RequestException` from either HTTP
call — `http := true` marks the `raise_for_status` of a non-2xx
response, `http := false` a transient failure (timeout, connection);
the other constructors describe a completed 2xx round trip. -/
inductive PubChemAttempt where
  | raised : Bool → PubChemAttempt
  | noProperties : PubChemAttempt
  | noSynInfo : String → String → PubChemAttempt
  | syns : String → String → List String → PubChemAttempt
deriving DecidableEq

/-- Result of the PubChem lookup for one candidate name. -/
inductive QueryResult where
  | success : String → String → String → QueryResult
  | notFound : QueryResult
  | casNotFound : String → String → QueryResult
  | error : QueryResult
deriving DecidableEq

/-- CAS-shaped token test, the regex `^\d{2,7}-\d{2}-\d$`. -/
def casShape (s : String) : Bool :=
  let d1 := s.data.takeWhile Char.isDigit
  match s.data.dropWhile Char.isDigit with
  | '-' :: r2 =>
    let d2 := r2.takeWhile Char.isDigit
    match r2.dropWhile Char.isDigit with
    | '-' :: r4 =>
      match r4 with
      | [d] => d.isDigit && decide (2 ≤ d1.length ∧ d1.length ≤ 7 ∧ d2.length = 2)
      | _ => false
    | _ => false
  | _ => false

/-- Value of the `try` body of one attempt: `none` when it raised (and
control falls to the `except` handler), `some r` when it returned `r`. -/
def queryStep : PubChemAttempt → Option QueryResult
  | .raised _ => none
  | .noProperties => some .notFound
  | .noSynInfo cid iupac => some (.casNotFound cid iupac)
  | .syns cid iupac synonyms =>
    match synonyms.filter casShape with
    | [] => some (.casNotFound cid iupac)
    | cas :: _ => some (.success cid iupac cas)

/-- Retry loop of `query_pubchem_with_retry`: on an exception, retry
while attempts remain (after the fixed delay), else return the terminal
Error result. -/
def queryLoop (att : Nat → PubChemAttempt) : Nat → Nat → QueryResult
  | _, 0 => .error
  | i, remaining + 1 =>
    match queryStep (att i) with
    | some res => res
    | none =>
      match remaining with
      | 0 => .error
      | _ + 1 => queryLoop att (i + 1) remaining

/-- `MAX_RETRIES` of step 4a. -/
def MAX_RETRIES : Nat := 3

/-- `query_pubchem_with_retry`, as a function of what the network
returns on each attempt. -/
def query_pubchem_with_retry (att : Nat → PubChemAttempt) : QueryResult :=
  queryLoop att 0 MAX_RETRIES

/-! ### Step 5: `curate_compounds` -/

/-- `clean_cas`: `None`, the empty string, and the lowercase tokens
`none` / `nan` / `not_found` become `None`; otherwise the stripped
string is returned (the token check runs on the unstripped value). -/
def clean_cas (o : Option String) : Option String :=
  match o with
  | none => none
  | some s =>
    if s = "" ∨ pyLower s = "none" ∨ pyLower s = "nan" ∨ pyLower s = "not_found" then none
    else some (pyStrip s)

/-- One row of `orphan_candidates_api.csv`, keyed by `original_name`. -/
structure ApiRow where
  suggested_cas : Option String
  suggested_name : Option String
  pubchem_cid : Option String
deriving DecidableEq

/-- One row of `orphan_candidates_llm_wb.csv`, keyed by `original_name`. -/
structure LlmRow where
  suggested_cas : Option String
  confidence : Option String
  molecular_formula : Option String
  molecular_weight : Option String
  smiles : Option String
deriving DecidableEq

/-- One row of the conflict review table written by step 5. -/
structure FusionConflict where
  name : Option String
  cas_api : String
  cas_llm : String
  llm_confidence : Option String
  decision : String
deriving DecidableEq

/-- Confidence tag text `f"LLM_{confidence}"` with
`confidence = llm_data.get('confidence', 'Unknown')`: a missing row
yields the default `Unknown`, a present row with a null value prints as
`None`. -/
def llmConfTag (llmRow : Option LlmRow) : String :=
  match llmRow with
  | some row => pyRepr row.confidence
  | none => "Unknown"

/-- Fusion of one compound record (one iteration of step 5's loop) with
the two candidate lookups: provenance and empty properties are attached
first; a Verified record with a usable document CAS is passed through
with source `Document`; otherwise the API candidate wins, else the LLM
candidate, else the record is left with source `None`.  A conflict row
is returned when both candidates propose different usable CAS values. -/
def curate_record (api : Option String → Option ApiRow) (llm : Option String → Option LlmRow)
    (rec : CRecord) : CRecord × Option FusionConflict :=
  let original_cas := clean_cas rec.cas_number
  let rec0 := { rec with
    provenance := some { cas_from_doc := original_cas, cas_from_api := none, cas_from_llm := none }
    chemical_properties := some { molecular_formula := none, molecular_weight := none,
                                  smiles := none, pubchem_cid := none, suggested_iupac := none } }
  if rec.status = "Verified" ∧ pyTruthy original_cas then
    ({ rec0 with cas_source := some "Document" }, none)
  else
    let apiData := api rec.preferred_name
    let llmData := llm rec.preferred_name
    let cas_api := clean_cas (apiData.bind ApiRow.suggested_cas)
    let cas_llm := clean_cas (llmData.bind LlmRow.suggested_cas)
    let rec1 := { rec0 with
      provenance := some { cas_from_doc := original_cas, cas_from_api := cas_api,
                           cas_from_llm := cas_llm } }
    let rec2 :=
      if pyTruthy cas_api then
        { rec1 with
          cas_number := cas_api
          cas_source := some "API_PubChem"
          status := "Curated"
          chemical_properties := some { molecular_formula := none, molecular_weight := none,
                                        smiles := none,
                                        pubchem_cid := apiData.bind ApiRow.pubchem_cid,
                                        suggested_iupac := apiData.bind ApiRow.suggested_name } }
      else if pyTruthy cas_llm then
        { rec1 with
          cas_number := cas_llm
          cas_source := some ("LLM_" ++ llmConfTag llmData)
          status := "Curated"
          chemical_properties := some {
            molecular_formula := llmData.bind LlmRow.molecular_formula
            molecular_weight := llmData.bind LlmRow.molecular_weight
            smiles := llmData.bind LlmRow.smiles
            pubchem_cid := none, suggested_iupac := none } }
      else { rec1 with cas_source := some "None" }
    let conflict :=
      if pyTruthy cas_api ∧ pyTruthy cas_llm ∧ ¬cas_api = cas_llm then
        some { name := rec.preferred_name
               cas_api := pyStr cas_api
               cas_llm := pyStr cas_llm
               llm_confidence := llmData.bind LlmRow.confidence
               decision := "Auto-selected API" }
      else none
    (rec2, conflict)

/-- `curate_compounds`: fusion over a compound list, returning the
updated list and the conflict review rows. -/
def curate_compounds (api : Option String → Option ApiRow) (llm : Option String → Option LlmRow)
    (compounds : List CRecord) : List CRecord × List FusionConflict :=
  (compounds.map fun r => (curate_record api llm r).1,
   compounds.filterMap fun r => (curate_record api llm r).2)

/-! ### Step 6: `backfill_detections` -/

/-- Lookup table `name_to_cas_map` built from the compound knowledge
base: last assignment wins, keyed by `preferred_name.strip().lower()`,
storing the raw `cas_number` (an entry needs both fields truthy). -/
def name_to_cas_map (kb : List CRecord) (k : String) : Option String :=
  kb.foldl (fun acc c =>
    if pyTruthy c.preferred_name ∧ pyTruthy c.cas_number
        ∧ pyLower (pyStrip (pyStr c.preferred_name)) = k
    then some (pyStr c.cas_number) else acc) none

/-- Lookup table `cas_to_name_map`: keyed by `cas_number.strip()`,
storing the raw `preferred_name`. -/
def cas_to_name_map (kb : List CRecord) (k : String) : Option String :=
  kb.foldl (fun acc c =>
    if pyTruthy c.cas_number ∧ pyTruthy c.preferred_name
        ∧ pyStrip (pyStr c.cas_number) = k
    then some (pyStr c.preferred_name) else acc) none

/-- Logic A of the back-fill: fill a CAS that is empty or the literal
`'none'` from the name lookup. -/
def backfill_cas (kb : List CRecord) (r : DRecord) : DRecord :=
  if (pyStrip (pyStr r.CAS_number) = "" ∨ pyLower (pyStrip (pyStr r.CAS_number)) = "none")
      ∧ ¬pyStrip (pyStr r.compound_english_name) = "" then
    match name_to_cas_map kb (pyLower (pyStrip (pyStr r.compound_english_name))) with
    | some t => if t = "" then r else { r with CAS_number := some t }
    | none => r
  else r

/-- Back-fill of one detection record from the knowledge base: logic A,
then logic B filling a name that is empty or the literal `'none'` from
the CAS lookup.  Both guards read the original field values
(`current_cas` / `current_name` are computed before either fill). -/
def backfill_record (kb : List CRecord) (r : DRecord) : DRecord :=
  if (pyStrip (pyStr r.compound_english_name) = ""
        ∨ pyLower (pyStrip (pyStr r.compound_english_name)) = "none")
      ∧ ¬pyStrip (pyStr r.CAS_number) = "" then
    match cas_to_name_map kb (pyStrip (pyStr r.CAS_number)) with
    | some t =>
      if t = "" then backfill_cas kb r
      else { backfill_cas kb r with compound_english_name := some t }
    | none => backfill_cas kb r
  else backfill_cas kb r

/-- `backfill_detections`: the back-fill applied to every record. -/
def backfill_detections (kb : List CRecord) (dets : List DRecord) : List DRecord :=
  dets.map (backfill_record kb)

/-- Usability of a stripped registry value: nonempty and not the
literal `'none'`; the sufficient registry condition for back-fill
idempotence. -/
def usableStr (s : String) : Bool :=
  !decide (s = "") && !decide (pyLower s = "none")

/-- Cleanliness of a compound knowledge base: every truthy CAS and
preferred-name value is usable after stripping. -/
def kbClean (kb : List CRecord) : Bool :=
  kb.all fun c =>
    (!pyTruthy c.cas_number || usableStr (pyStrip (pyStr c.cas_number))) &&
    (!pyTruthy c.preferred_name || usableStr (pyStrip (pyStr c.preferred_name)))

/-! ### Concrete sample data used by witnesses and counterexamples -/

/-- Transition whose type text contains `quantification`. -/
def msQuant : MSParam :=
  { precursor_mz := some "100.1", product_mz := some "50.2", polarity := some "Positive",
    parameter_type := some "Quantification ion", source_ion_label := none }

/-- Transition whose type text matches no vocabulary keyword. -/
def msScreening : MSParam :=
  { precursor_mz := some "200.0", product_mz := some "80.0", polarity := some "ESI-",
    parameter_type := some "screening", source_ion_label := none }

/-- Detection record with two transitions. -/
def sampleRec : DRecord :=
  { CAS_number := some "50-00-0", compound_english_name := some "Formaldehyde",
    method_id := some "M1", run_config_id := some "R1", source_file := some "f.json",
    mass_spec_params := [msQuant, msScreening],
    performance_parameters := [{ parameter_name := some "RT", value := some "5.2", unit := some "min" }],
    extra := [] }

/-- Detection record with an empty transition list. -/
def emptyMsRec : DRecord :=
  { CAS_number := some "64-17-5", compound_english_name := some "Ethanol",
    method_id := some "M2", run_config_id := some "R2", source_file := some "g.json",
    mass_spec_params := [], performance_parameters := [], extra := [] }

/-- Gold record: CAS and name both present. -/
def recAflatoxinGold : DRecord :=
  { CAS_number := some "1162-65-8", compound_english_name := some "Aflatoxin B1",
    method_id := none, run_config_id := none, source_file := none,
    mass_spec_params := [], performance_parameters := [], extra := [] }

/-- Record carrying the textual null `"None"` as its CAS value. -/
def recTextualNullCas : DRecord :=
  { CAS_number := some "None", compound_english_name := some "aflatoxin b1",
    method_id := none, run_config_id := none, source_file := none,
    mass_spec_params := [], performance_parameters := [], extra := [] }

/-- Scenario-B record: name `XYZ-9` with CAS `111-1-1`. -/
def recXyz1 : DRecord :=
  { CAS_number := some "111-1-1", compound_english_name := some "XYZ-9",
    method_id := none, run_config_id := none, source_file := none,
    mass_spec_params := [], performance_parameters := [], extra := [] }

/-- Scenario-B record: name `XYZ-9` with CAS `222-2-2`. -/
def recXyz2 : DRecord :=
  { CAS_number := some "222-2-2", compound_english_name := some "XYZ-9",
    method_id := none, run_config_id := none, source_file := none,
    mass_spec_params := [], performance_parameters := [], extra := [] }

/-- Scenario-B record: name `XYZ-9` without CAS. -/
def recXyz3 : DRecord :=
  { CAS_number := none, compound_english_name := some "XYZ-9",
    method_id := none, run_config_id := none, source_file := none,
    mass_spec_params := [], performance_parameters := [], extra := [] }

/-- Record carrying a CAS but no name. -/
def recCasOnly : DRecord :=
  { CAS_number := some "99-9-9", compound_english_name := none,
    method_id := none, run_config_id := none, source_file := none,
    mass_spec_params := [], performance_parameters := [], extra := [] }

/-- Orphan compound of scenario C. -/
def orphanZ : CRecord :=
  { cas_number := none, preferred_name := some "Compound Z", synonyms := [],
    status := "Orphan", cas_source := none, provenance := none, chemical_properties := none }

/-- API lookup of scenario C, proposing CAS `50-00-0` for `Compound Z`. -/
def apiLookupC : Option String → Option ApiRow := fun n =>
  if n = some "Compound Z" then
    some { suggested_cas := some "50-00-0", suggested_name := some "formaldehyde",
           pubchem_cid := some "712" }
  else none

/-- LLM lookup of scenario C, proposing CAS `50-00-1` with confidence
`High` for `Compound Z`. -/
def llmLookupC : Option String → Option LlmRow := fun n =>
  if n = some "Compound Z" then
    some { suggested_cas := some "50-00-1", confidence := some "High",
           molecular_formula := none, molecular_weight := none, smiles := none }
  else none

/-- Attempt trace whose first attempt is a non-2xx response and whose
later attempts complete with a CAS-shaped synonym. -/
def attemptHttpThenOk : Nat → PubChemAttempt := fun i =>
  if i = 0 then .raised true else .syns "712" "formaldehyde" ["50-00-0"]

/-- Test whether an attempt raised a `RequestException`. -/
def isRaised : PubChemAttempt → Bool
  | .raised _ => true
  | _ => false

/-- Knowledge base holding the textual CAS value `"none"`, which the
back-fill maps treat as an ordinary key and value. -/
def kbDirty : List CRecord :=
  [{ cas_number := some "none", preferred_name := some "abc", synonyms := [],
     status := "Curated", cas_source := none, provenance := none, chemical_properties := none },
   { cas_number := some "123", preferred_name := some "abc", synonyms := [],
     status := "Curated", cas_source := none, provenance := none, chemical_properties := none }]

/-- Detection record whose CAS is the literal `"none"` and whose name is
the literal `"None"`. -/
def rDirty : DRecord :=
  { CAS_number := some "none", compound_english_name := some "None",
    method_id := none, run_config_id := none, source_file := none,
    mass_spec_params := [], performance_parameters := [], extra := [] }

/-- Clean knowledge base mapping `abc` to CAS `1162-65-8`. -/
def kbCleanSample : List CRecord :=
  [{ cas_number := some "1162-65-8", preferred_name := some "abc", synonyms := [],
     status := "Curated", cas_source := none, provenance := none, chemical_properties := none }]

/-- Record with CAS `1162-65-8` and no name. -/
def recAflatoxinNameless : DRecord :=
  { CAS_number := some "1162-65-8", compound_english_name := none,
    method_id := none, run_config_id := none, source_file := none,
    mass_spec_params := [], performance_parameters := [], extra := [] }

/-! ## Lemmas: Python string operations -/

theorem mk_data_inj {l m : List Char} : String.mk l = String.mk m ↔ l = m :=
  ⟨fun h => by injection h, fun h => by rw [h]⟩

theorem data_eq_nil_iff {s : String} : s.data = [] ↔ s = "" := by
  cases s with
  | mk l =>
    show l = [] ↔ String.mk l = ""
    rw [show ("" : String) = String.mk [] from rfl]
    exact mk_data_inj.symm

theorem pyLower_eq_empty_iff {s : String} : pyLower s = "" ↔ s = "" := by
  unfold pyLower
  rw [show ("" : String) = String.mk [] from rfl, mk_data_inj, List.map_eq_nil_iff,
    ← show ("" : String) = String.mk [] from rfl]
  exact data_eq_nil_iff

theorem not_hasVal_iff {s : String} :
    ¬hasVal s ↔ s = "" ∨ pyLower s = "none" ∨ pyLower s = "null" := by
  unfold hasVal; tauto

theorem dropWhile_eq_self_of_head {α : Type} {p : α → Bool} {l : List α}
    (h : ∀ x, l.head? = some x → p x = false) : l.dropWhile p = l := by
  cases l with
  | nil => rfl
  | cons a t =>
    rw [List.dropWhile_cons, if_neg]
    simp [h a rfl]

theorem dropWhile_dropWhile {α : Type} (p : α → Bool) (l : List α) :
    (l.dropWhile p).dropWhile p = l.dropWhile p := by
  apply dropWhile_eq_self_of_head
  intro x hx
  have h := List.head?_dropWhile_not p l
  rw [hx] at h
  exact h

theorem head?_eq_of_prefix {α : Type} {s t : List α} (h : s <+: t) (hs : s ≠ []) :
    s.head? = t.head? := by
  obtain ⟨u, rfl⟩ := h
  cases s with
  | nil => exact absurd rfl hs
  | cons a l => rfl

theorem stripList_pref (l : List Char) : stripList l <+: l.dropWhile isPyWs := by
  show ((l.dropWhile isPyWs).reverse.dropWhile isPyWs).reverse <+: l.dropWhile isPyWs
  have h := List.reverse_prefix.mpr
    (List.dropWhile_suffix (l := (l.dropWhile isPyWs).reverse) isPyWs)
  rwa [List.reverse_reverse] at h

theorem stripList_head {l : List Char} {x : Char}
    (hx : (stripList l).head? = some x) : isPyWs x = false := by
  have hne : stripList l ≠ [] := by
    intro h; rw [h] at hx; exact Option.noConfusion hx
  have := head?_eq_of_prefix (stripList_pref l) hne
  rw [this] at hx
  have h := List.head?_dropWhile_not isPyWs l
  rw [hx] at h
  exact h

theorem stripList_idem (l : List Char) : stripList (stripList l) = stripList l := by
  have h1 : (stripList l).dropWhile isPyWs = stripList l :=
    dropWhile_eq_self_of_head fun x hx => stripList_head hx
  show ((stripList l |>.dropWhile isPyWs).reverse.dropWhile isPyWs).reverse = stripList l
  rw [h1]
  have h2 : (stripList l).reverse = (l.dropWhile isPyWs).reverse.dropWhile isPyWs := by
    show ((l.dropWhile isPyWs).reverse.dropWhile isPyWs).reverse.reverse = _
    rw [List.reverse_reverse]
  rw [h2, dropWhile_dropWhile]
  rfl

theorem pyStrip_idem (s : String) : pyStrip (pyStrip s) = pyStrip s :=
  congrArg String.mk (stripList_idem s.data)

theorem pyStr_some_eq (s : String) : pyStr (some s) = s := rfl

theorem pyStrip_pyStr_some {s : String} (h : stripList s.data = s.data) :
    pyStrip (pyStr (some s)) = s := by
  cases s with
  | mk l => exact congrArg String.mk h

/-! ## Lemmas and claims: step 3 MasterFlattener (C4, C6) -/

theorem process_records_eq (l2 : List DRecord) :
    process_records l2 = l2.flatMap fun rec => rec.mass_spec_params.map (makeRow rec) := by
  unfold process_records
  congr 1
  funext rec
  cases h : rec.mass_spec_params with
  | nil => simp [h]
  | cons a t => simp [h]

/-- C4: the MasterFlattener emits exactly `len(mass_spec_params)` rows
per record, so the total row count is the sum of transition counts over
the input records, and a record with an empty (or missing, which the
loader reads as empty) transition list contributes zero rows without
error. -/
theorem flattener_row_count (l2 : List DRecord) :
    (process_records l2).length = (l2.map fun r => r.mass_spec_params.length).sum
    ∧ ∀ rec rest, rec.mass_spec_params = [] →
        process_records (rec :: rest) = process_records rest := by
  constructor
  · rw [process_records_eq, List.length_flatMap]
    congr 1
    apply List.map_congr_left
    intro r _
    simp
  · intro rec rest h
    rw [process_records_eq, process_records_eq, List.flatMap_cons, h]
    rfl

/-- Witness for C4 at a record with two transitions plus a record with
an empty transition list. -/
theorem flattener_row_count_witness :
    (process_records [sampleRec]).length = 2
    ∧ process_records (emptyMsRec :: [sampleRec]) = process_records [sampleRec] := by
  constructor
  · rw [(flattener_row_count [sampleRec]).1]; rfl
  · exact (flattener_row_count [sampleRec]).2 emptyMsRec [sampleRec] rfl

/-- Counterexample to C6: a transition whose type text (`"screening"`)
matches neither vocabulary receives the default `"Target"`, not
`"Quant"`. -/
theorem type_default_counterexample :
    (process_records [sampleRec]).map Row.Type_ = ["Quant", "Target"]
    ∧ ¬("Target" : String) = "Quant" := by
  constructor
  · rfl
  · decide

/-- C6 (amended): type text is mapped by first keyword containment in
`type_map` to `Quant` or `Qual`, and a transition matching neither
vocabulary receives the default `"Target"`. -/
theorem type_normalization :
    (∀ l2 row, row ∈ process_records l2 →
       row.Type_ = "Quant" ∨ row.Type_ = "Qual" ∨ row.Type_ = "Target")
    ∧ (∀ raw, (∀ kv ∈ type_map, strContains raw kv.1 = false) → typeNorm raw = "Target")
    ∧ (∀ raw kv, type_map.find? (fun kv => strContains raw kv.1) = some kv →
        typeNorm raw = kv.2) := by
  refine ⟨?_, ?_, ?_⟩
  · intro l2 row hrow
    rw [process_records_eq] at hrow
    simp only [List.mem_flatMap, List.mem_map] at hrow
    obtain ⟨rec, _, ms, _, rfl⟩ := hrow
    show typeNorm (rawType ms) = "Quant" ∨ typeNorm (rawType ms) = "Qual"
      ∨ typeNorm (rawType ms) = "Target"
    unfold typeNorm
    cases hf : type_map.find? (fun kv => strContains (rawType ms) kv.1) with
    | none => right; right; rfl
    | some kv =>
      have hm := List.mem_of_find?_eq_some hf
      have h2 : kv.2 = "Quant" ∨ kv.2 = "Qual" := by
        fin_cases hm <;> simp
      show kv.2 = "Quant" ∨ kv.2 = "Qual" ∨ kv.2 = "Target"
      rcases h2 with h | h
      · left; exact h
      · right; left; exact h
  · intro raw h
    unfold typeNorm
    rw [List.find?_eq_none.mpr (by intro kv hkv; simp [h kv hkv])]
  · intro raw kv h
    unfold typeNorm
    rw [h]

/-- Witness for C6 (amended) on the sample transitions: a contained
keyword maps to `Quant`, and an unmatched type text yields `Target`. -/
theorem type_normalization_witness :
    typeNorm (rawType msQuant) = "Quant" ∧ typeNorm (rawType msScreening) = "Target" := by
  constructor
  · exact type_normalization.2.2 (rawType msQuant) ("quantification", "Quant") rfl
  · exact type_normalization.2.1 (rawType msScreening) (by decide)

/-! ## Claims: step 4a retry loop (C8) -/

/-- Counterexample to C8: the first attempt answers with a non-2xx
status (`raise_for_status` raises an `HTTPError`, a subclass of
`RequestException`), yet the lookup retries and succeeds on the second
attempt instead of returning a failure for the candidate. -/
theorem non2xx_retried_counterexample :
    attemptHttpThenOk 0 = .raised true
    ∧ query_pubchem_with_retry attemptHttpThenOk = .success "712" "formaldehyde" "50-00-0"
    ∧ ¬query_pubchem_with_retry attemptHttpThenOk = .error := by
  refine ⟨rfl, rfl, ?_⟩
  intro h
  exact QueryResult.noConfusion h

theorem queryStep_some_ne_error {a : PubChemAttempt} {r : QueryResult}
    (h : queryStep a = some r) : ¬r = .error := by
  cases a with
  | raised b => exact absurd h (by simp [queryStep])
  | noProperties =>
    injection h with h
    subst h
    intro hc; exact QueryResult.noConfusion hc
  | noSynInfo c i =>
    injection h with h
    subst h
    intro hc; exact QueryResult.noConfusion hc
  | syns c i syn =>
    revert h
    show (match syn.filter casShape with
          | [] => some (QueryResult.casNotFound c i)
          | cas :: _ => some (QueryResult.success c i cas)) = some r → ¬r = .error
    cases syn.filter casShape with
    | nil =>
      intro h; injection h with h; subst h
      intro hc; exact QueryResult.noConfusion hc
    | cons x t =>
      intro h; injection h with h; subst h
      intro hc; exact QueryResult.noConfusion hc

theorem isRaised_iff_queryStep_none (a : PubChemAttempt) :
    isRaised a = true ↔ queryStep a = none := by
  cases a with
  | raised b => simp [isRaised, queryStep]
  | noProperties => simp [isRaised, queryStep]
  | noSynInfo c i => simp [isRaised, queryStep]
  | syns c i syn =>
    simp only [isRaised, queryStep]
    cases syn.filter casShape <;> simp

theorem queryLoop_succ (att : Nat → PubChemAttempt) (i r : Nat) :
    queryLoop att i (r + 1) =
      match queryStep (att i) with
      | some res => res
      | none =>
        match r with
        | 0 => .error
        | _ + 1 => queryLoop att (i + 1) r := rfl

theorem queryLoop_error_iff (att : Nat → PubChemAttempt) :
    ∀ r i, queryLoop att i (r + 1) = .error ↔ ∀ j, j ≤ r → isRaised (att (i + j)) = true := by
  intro r
  induction r with
  | zero =>
    intro i
    rw [queryLoop_succ]
    cases hq : queryStep (att i) with
    | some res =>
      constructor
      · intro h; exact absurd h (queryStep_some_ne_error hq)
      · intro h
        have h0 := h 0 (Nat.le_refl 0)
        rw [Nat.add_zero, isRaised_iff_queryStep_none, hq] at h0
        exact Option.noConfusion h0
    | none =>
      constructor
      · intro _ j hj
        interval_cases j
        rw [Nat.add_zero, isRaised_iff_queryStep_none]
        exact hq
      · intro _; rfl
  | succ r2 ih =>
    intro i
    rw [queryLoop_succ]
    cases hq : queryStep (att i) with
    | some res =>
      constructor
      · intro h; exact absurd h (queryStep_some_ne_error hq)
      · intro h
        have h0 := h 0 (Nat.zero_le _)
        rw [Nat.add_zero, isRaised_iff_queryStep_none, hq] at h0
        exact Option.noConfusion h0
    | none =>
      rw [ih (i + 1)]
      constructor
      · intro h j hj
        match j with
        | 0 =>
          rw [Nat.add_zero, isRaised_iff_queryStep_none]
          exact hq
        | j2 + 1 =>
          have := h j2 (by omega)
          rwa [show i + 1 + j2 = i + (j2 + 1) by omega] at this
      · intro h j hj
        have := h (j + 1) (by omega)
        rwa [show i + (j + 1) = i + 1 + j by omega] at this

/-- C8 (amended): a non-2xx response raises and is handled exactly like
a transient failure — the lookup returns the terminal Error for a
candidate precisely when all `MAX_RETRIES` attempts raise, whether from
transient failures or non-2xx responses. -/
theorem query_error_iff_all_raised (att : Nat → PubChemAttempt) :
    query_pubchem_with_retry att = .error ↔
      isRaised (att 0) = true ∧ isRaised (att 1) = true ∧ isRaised (att 2) = true := by
  show queryLoop att 0 (2 + 1) = .error ↔ _
  rw [queryLoop_error_iff att 2 0]
  constructor
  · intro h
    exact ⟨h 0 (by omega), h 1 (by omega), h 2 (by omega)⟩
  · rintro ⟨h0, h1, h2⟩ j hj
    interval_cases j
    · exact h0
    · exact h1
    · exact h2

/-! ## Claims: step 5 fusion (C2, C1) -/

/-- C2: for an orphan entering fusion the waterfall is deterministic: a
usable API CAS wins unconditionally (status `Curated`, source
`API_PubChem`); otherwise a usable LLM CAS wins with source
`LLM_<confidence>`; otherwise the orphan keeps its CAS and status and
gets source `None`.  The conflict row is exactly determined by the two
candidates disagreeing, and the selected record is fixed by the first
three clauses alone, so emitting a conflict never changes the
selection. -/
theorem fusion_waterfall (api : Option String → Option ApiRow)
    (llm : Option String → Option LlmRow) (rec : CRecord) (h : rec.status = "Orphan") :
    (pyTruthy (clean_cas ((api rec.preferred_name).bind ApiRow.suggested_cas)) = true →
       (curate_record api llm rec).1.cas_number
           = clean_cas ((api rec.preferred_name).bind ApiRow.suggested_cas)
         ∧ (curate_record api llm rec).1.status = "Curated"
         ∧ (curate_record api llm rec).1.cas_source = some "API_PubChem")
    ∧ (pyTruthy (clean_cas ((api rec.preferred_name).bind ApiRow.suggested_cas)) = false →
       pyTruthy (clean_cas ((llm rec.preferred_name).bind LlmRow.suggested_cas)) = true →
       (curate_record api llm rec).1.cas_number
           = clean_cas ((llm rec.preferred_name).bind LlmRow.suggested_cas)
         ∧ (curate_record api llm rec).1.status = "Curated"
         ∧ (curate_record api llm rec).1.cas_source
             = some ("LLM_" ++ llmConfTag (llm rec.preferred_name)))
    ∧ (pyTruthy (clean_cas ((api rec.preferred_name).bind ApiRow.suggested_cas)) = false →
       pyTruthy (clean_cas ((llm rec.preferred_name).bind LlmRow.suggested_cas)) = false →
       (curate_record api llm rec).1.cas_number = rec.cas_number
         ∧ (curate_record api llm rec).1.status = rec.status
         ∧ (curate_record api llm rec).1.cas_source = some "None")
    ∧ ((curate_record api llm rec).2 =
        if pyTruthy (clean_cas ((api rec.preferred_name).bind ApiRow.suggested_cas))
            ∧ pyTruthy (clean_cas ((llm rec.preferred_name).bind LlmRow.suggested_cas))
            ∧ ¬clean_cas ((api rec.preferred_name).bind ApiRow.suggested_cas)
                = clean_cas ((llm rec.preferred_name).bind LlmRow.suggested_cas) then
          some { name := rec.preferred_name
                 cas_api := pyStr (clean_cas ((api rec.preferred_name).bind ApiRow.suggested_cas))
                 cas_llm := pyStr (clean_cas ((llm rec.preferred_name).bind LlmRow.suggested_cas))
                 llm_confidence := (llm rec.preferred_name).bind LlmRow.confidence
                 decision := "Auto-selected API" }
        else none) := by
  have hne : ¬(rec.status = "Verified" ∧ pyTruthy (clean_cas rec.cas_number) = true) := by
    rintro ⟨h1, _⟩
    rw [h] at h1
    exact absurd h1 (by decide)
  refine ⟨?_, ?_, ?_, ?_⟩
  · intro hA
    simp [curate_record, hne, hA]
  · intro hA hL
    simp [curate_record, hne, hA, hL]
  · intro hA hL
    simp [curate_record, hne, hA, hL]
  · simp [curate_record, hne]

/-- Witness for C2 at scenario C: the API candidate `50-00-0` wins over
the LLM candidate `50-00-1`, and one conflict row with both values is
emitted without changing the selection. -/
theorem fusion_waterfall_witness :
    (curate_record apiLookupC llmLookupC orphanZ).1.cas_number = some "50-00-0"
    ∧ (curate_record apiLookupC llmLookupC orphanZ).1.status = "Curated"
    ∧ (curate_record apiLookupC llmLookupC orphanZ).1.cas_source = some "API_PubChem"
    ∧ (curate_record apiLookupC llmLookupC orphanZ).2 =
        some { name := some "Compound Z", cas_api := "50-00-0", cas_llm := "50-00-1",
               llm_confidence := some "High", decision := "Auto-selected API" } := by
  have h := fusion_waterfall apiLookupC llmLookupC orphanZ rfl
  have h1 := h.1 (by decide)
  refine ⟨h1.1.trans (by decide), h1.2.1, h1.2.2, h.2.2.2.trans (by decide)⟩

theorem orphansAux_mem {vl seen l} {c : CRecord} (h : c ∈ orphansAux vl seen l) :
    c.status = "Orphan" ∧ c.cas_number = none := by
  induction l generalizing seen with
  | nil => exact absurd h (by simp [orphansAux])
  | cons n rest ih =>
    unfold orphansAux at h
    by_cases h1 : pyLower n ∈ vl
    · rw [if_pos h1] at h
      exact ih h
    · rw [if_neg h1] at h
      by_cases h2 : pyLower n ∈ seen
      · rw [if_pos h2] at h
        exact ih h
      · rw [if_neg h2] at h
        rcases List.mem_cons.mp h with h3 | h3
        · rw [h3]; exact ⟨rfl, rfl⟩
        · exact ih h3

theorem build_compounds_shape {l1 : List DRecord} {c : CRecord} (h : c ∈ build_compounds l1) :
    (c.status = "Verified" ∧ ∃ s, c.cas_number = some s)
    ∨ (c.status = "Orphan" ∧ c.cas_number = none) := by
  unfold build_compounds at h
  rcases List.mem_append.mp h with h1 | h1
  · rcases List.mem_append.mp h1 with h2 | h2
    · left
      obtain ⟨cas, _, rfl⟩ := List.mem_map.mp h2
      exact ⟨rfl, cas, rfl⟩
    · left
      obtain ⟨cas, _, rfl⟩ := List.mem_map.mp h2
      exact ⟨rfl, cas, rfl⟩
  · right
    exact orphansAux_mem h1

theorem pyTruthy_some_of_true {o : Option String} (h : pyTruthy o = true) :
    ∃ s, o = some s ∧ ¬s = "" := by
  cases o with
  | none => exact absurd h (by decide)
  | some s =>
    refine ⟨s, rfl, ?_⟩
    intro hs
    rw [hs] at h
    exact absurd h (by decide)

theorem curate_record_inv (api : Option String → Option ApiRow)
    (llm : Option String → Option LlmRow) (c : CRecord)
    (hshape : (c.status = "Verified" ∧ ∃ s, c.cas_number = some s)
      ∨ (c.status = "Orphan" ∧ c.cas_number = none)) :
    ((curate_record api llm c).1.status = "Verified" ∨ (curate_record api llm c).1.status = "Curated")
      ↔ ¬(curate_record api llm c).1.cas_number = none := by
  by_cases hv : c.status = "Verified" ∧ pyTruthy (clean_cas c.cas_number) = true
  · rcases hshape with ⟨hs, s, hc⟩ | ⟨hs, hc⟩
    · obtain ⟨-, htr⟩ := hv
      rw [hc] at htr
      simp [curate_record, hs, hc, htr]
    · rw [hs] at hv
      exact absurd hv.1 (by decide)
  · by_cases hA : pyTruthy (clean_cas ((api c.preferred_name).bind ApiRow.suggested_cas)) = true
    · obtain ⟨s, hs, _⟩ := pyTruthy_some_of_true hA
      rw [hs] at hA
      simp [curate_record, hv, hA, hs]
    · by_cases hL : pyTruthy (clean_cas ((llm c.preferred_name).bind LlmRow.suggested_cas)) = true
      · obtain ⟨s, hs, _⟩ := pyTruthy_some_of_true hL
        rw [hs] at hL
        simp [curate_record, hv, hA, hL, hs]
      · rcases hshape with ⟨hs, s, hc⟩ | ⟨hs, hc⟩
        · have hcd : ¬pyTruthy (clean_cas (some s)) = true := fun ht =>
            hv ⟨hs, by rw [hc]; exact ht⟩
          simp [curate_record, hA, hL, hs, hc, hcd]
        · simp [curate_record, hv, hA, hL, hs, hc]

/-- C1: every compound record produced by step 2's compound generation,
and every record of step 5's fusion output on it, satisfies
`status ∈ {Verified, Curated} ↔ cas_number ≠ null`. -/
theorem compound_status_iff_cas (l1 : List DRecord) (api : Option String → Option ApiRow)
    (llm : Option String → Option LlmRow) (c : CRecord) :
    (c ∈ build_compounds l1 →
       ((c.status = "Verified" ∨ c.status = "Curated") ↔ ¬c.cas_number = none))
    ∧ (c ∈ (curate_compounds api llm (build_compounds l1)).1 →
       ((c.status = "Verified" ∨ c.status = "Curated") ↔ ¬c.cas_number = none)) := by
  constructor
  · intro h
    rcases build_compounds_shape h with ⟨hs, s, hc⟩ | ⟨hs, hc⟩
    · rw [hs, hc]
      constructor
      · intro _ hn; exact Option.noConfusion hn
      · intro _; left; rfl
    · rw [hs, hc]
      constructor
      · rintro (h1 | h1) <;> exact absurd h1 (by decide)
      · intro h1; exact absurd rfl h1
  · intro h
    obtain ⟨c0, hc0, rfl⟩ := List.mem_map.mp h
    exact curate_record_inv api llm c0 (build_compounds_shape hc0)

/-- Witness for C1 on a two-record corpus: a recovered CAS-only
compound (Verified, non-null CAS) before fusion, and an unresolved
orphan (non-Verified, null CAS) after fusion with empty candidate
tables. -/
theorem compound_status_iff_cas_witness :
    (((("Verified" : String) = "Verified" ∨ ("Verified" : String) = "Curated")
        ↔ ¬(some "99-9-9" : Option String) = none))
    ∧ ((("Orphan" : String) = "Verified" ∨ ("Orphan" : String) = "Curated")
        ↔ ¬(none : Option String) = none) := by
  constructor
  · have h := (compound_status_iff_cas [recCasOnly, recXyz3] (fun _ => none) (fun _ => none)
      { cas_number := some "99-9-9", preferred_name := some "Unknown Compound (99-9-9)",
        synonyms := [], status := "Verified", cas_source := none, provenance := none,
        chemical_properties := none }).1 (by decide)
    exact h
  · have h := (compound_status_iff_cas [recCasOnly, recXyz3] (fun _ => none) (fun _ => none)
      { cas_number := none, preferred_name := some "XYZ-9",
        synonyms := [], status := "Orphan",
        cas_source := some "None",
        provenance := some { cas_from_doc := none, cas_from_api := none, cas_from_llm := none },
        chemical_properties := some { molecular_formula := none, molecular_weight := none,
                                      smiles := none, pubchem_cid := none,
                                      suggested_iupac := none } }).2 (by decide)
    exact h

/-! ## Claims: step 2 completion (C3) -/

theorem foldlMin_mem (xs : List String) (a : String) :
    xs.foldl (fun a y => if y.length < a.length then y else a) a ∈ a :: xs := by
  induction xs generalizing a with
  | nil => exact List.mem_singleton.mpr rfl
  | cons y ys ih =>
    have h := ih (if y.length < a.length then y else a)
    rcases List.mem_cons.mp h with h1 | h1
    · rw [List.foldl_cons, h1]
      by_cases hc : y.length < a.length
      · rw [if_pos hc]; exact List.mem_cons_of_mem a (List.mem_cons_self y ys)
      · rw [if_neg hc]; exact List.mem_cons_self a (y :: ys)
    · exact List.mem_cons_of_mem a (List.mem_cons_of_mem y h1)

theorem foldlMin_le (xs : List String) (a : String) :
    ∀ z ∈ a :: xs,
      (xs.foldl (fun a y => if y.length < a.length then y else a) a).length ≤ z.length := by
  induction xs generalizing a with
  | nil =>
    intro z hz
    rw [List.mem_singleton.mp hz]
    exact Nat.le_refl _
  | cons y ys ih =>
    intro z hz
    have hstep_a : (if y.length < a.length then y else a).length ≤ a.length := by
      by_cases hc : y.length < a.length
      · rw [if_pos hc]; exact Nat.le_of_lt hc
      · rw [if_neg hc]
    have hstep_y : (if y.length < a.length then y else a).length ≤ y.length := by
      by_cases hc : y.length < a.length
      · rw [if_pos hc]
      · rw [if_neg hc]; exact Nat.le_of_not_lt hc
    have hres := ih (if y.length < a.length then y else a)
    rcases List.mem_cons.mp hz with h1 | h1
    · rw [h1]
      exact Nat.le_trans (hres _ (List.mem_cons_self _ _)) hstep_a
    · rcases List.mem_cons.mp h1 with h2 | h2
      · rw [h2]
        exact Nat.le_trans (hres _ (List.mem_cons_self _ _)) hstep_y
      · exact hres z (List.mem_cons_of_mem _ h2)

theorem minLen_mem {l : List String} {m : String} (h : minLen l = some m) : m ∈ l := by
  cases l with
  | nil => exact absurd h (by simp [minLen])
  | cons x xs =>
    unfold minLen at h
    injection h with h
    rw [← h]
    exact foldlMin_mem xs x

theorem minLen_le {l : List String} {m : String} (h : minLen l = some m) :
    ∀ x ∈ l, m.length ≤ x.length := by
  cases l with
  | nil => exact absurd h (by simp [minLen])
  | cons x xs =>
    unfold minLen at h
    injection h with h
    rw [← h]
    exact foldlMin_le xs x

/-- C3: the CompletionEngine fills a missing CAS exactly when the
lowercased name resolves to exactly one CAS in the identity graph (zero
or two-plus candidates leave the record unchanged), and fills a missing
name with the shortest name associated with the record's CAS. -/
theorem completion_rules (l1 : List DRecord) (r : DRecord) :
    (¬hasVal (pyStrip (pyStr r.CAS_number)) →
     hasVal (pyStrip (pyStr r.compound_english_name)) →
     ((∀ c, nameToCas l1 (pyLower (pyStrip (pyStr r.compound_english_name))) = [c] →
        complete_record (nameToCas l1) (casToNames l1) r = { r with CAS_number := some c })
      ∧ (nameToCas l1 (pyLower (pyStrip (pyStr r.compound_english_name))) = [] →
        complete_record (nameToCas l1) (casToNames l1) r = r)
      ∧ (∀ c1 c2 cs,
          nameToCas l1 (pyLower (pyStrip (pyStr r.compound_english_name))) = c1 :: c2 :: cs →
          complete_record (nameToCas l1) (casToNames l1) r = r)))
    ∧ (hasVal (pyStrip (pyStr r.CAS_number)) →
       ¬hasVal (pyStrip (pyStr r.compound_english_name)) →
       ((casToNames l1 (pyStrip (pyStr r.CAS_number)) = [] →
          complete_record (nameToCas l1) (casToNames l1) r = r)
        ∧ ∀ m, minLen (casToNames l1 (pyStrip (pyStr r.CAS_number))) = some m →
            complete_record (nameToCas l1) (casToNames l1) r
                = { r with compound_english_name := some m }
              ∧ m ∈ casToNames l1 (pyStrip (pyStr r.CAS_number))
              ∧ ∀ x ∈ casToNames l1 (pyStrip (pyStr r.CAS_number)), m.length ≤ x.length)) := by
  constructor
  · intro hcas hname
    refine ⟨?_, ?_, ?_⟩
    · intro c heq
      simp [complete_record, hcas, hname, heq]
    · intro heq
      simp [complete_record, hcas, hname, heq]
    · intro c1 c2 cs heq
      simp [complete_record, hcas, hname, heq]
  · intro hcas hname
    constructor
    · intro heq
      have hm : minLen (casToNames l1 (pyStrip (pyStr r.CAS_number))) = none := by
        rw [heq]; rfl
      simp [complete_record, hcas, hname, hm]
    · intro m hm
      refine ⟨?_, minLen_mem hm, minLen_le hm⟩
      simp [complete_record, hcas, hname, hm]

/-- Witness for C3 at scenario B (ambiguous name left unchanged) and at
a nameless record (shortest name filled). -/
theorem completion_rules_witness :
    complete_record (nameToCas [recXyz1, recXyz2, recXyz3])
        (casToNames [recXyz1, recXyz2, recXyz3]) recXyz3 = recXyz3
    ∧ complete_record (nameToCas [recAflatoxinGold, recAflatoxinNameless])
        (casToNames [recAflatoxinGold, recAflatoxinNameless]) recAflatoxinNameless
      = { recAflatoxinNameless with compound_english_name := some "Aflatoxin B1" } := by
  constructor
  · exact ((completion_rules [recXyz1, recXyz2, recXyz3] recXyz3).1 (by decide)
      (by decide)).2.2 "111-1-1" "222-2-2" [] (by decide)
  · exact (((completion_rules [recAflatoxinGold, recAflatoxinNameless]
      recAflatoxinNameless).2 (by decide) (by decide)).2 "Aflatoxin B1" (by decide)).1

/-! ## Lemmas: step 1 deep cleaner (C9, C7) -/

theorem char_toNat_ofNat {n : Nat} (h : n.isValidChar) : (Char.ofNat n).toNat = n := by
  unfold Char.ofNat
  rw [dif_pos h]
  unfold Char.ofNatAux Char.toNat
  simp [UInt32.toNat, BitVec.toNat_ofNatLt]

theorem nfkcChar_idem (c : Char) : nfkcChar (nfkcChar c) = nfkcChar c := by
  unfold nfkcChar
  by_cases h1 : 0xFF01 ≤ c.toNat ∧ c.toNat ≤ 0xFF5E
  · rw [if_pos h1]
    have hv : (c.toNat - 0xFEE0).isValidChar := by
      left; omega
    rw [char_toNat_ofNat hv]
    rw [if_neg (by omega), if_neg (by omega)]
  · rw [if_neg h1]
    by_cases h2 : c.toNat = 0x3000
    · rw [if_pos h2]
      rw [if_neg (by decide), if_neg (by decide)]
    · rw [if_neg h2, if_neg h1, if_neg h2]

theorem composePair_eq_some {b m c : Char} (h : composePair b m = some c) :
    m = '\u0301' ∧ (c = '\u00E1' ∨ c = '\u00E9') := by
  unfold composePair at h
  by_cases h1 : b = 'a' ∧ m = '\u0301'
  · rw [if_pos h1] at h
    injection h with h
    exact ⟨h1.2, Or.inl h.symm⟩
  · rw [if_neg h1] at h
    by_cases h2 : b = 'e' ∧ m = '\u0301'
    · rw [if_pos h2] at h
      injection h with h
      exact ⟨h2.2, Or.inr h.symm⟩
    · rw [if_neg h2] at h
      exact absurd h (by simp)

theorem composePair_eq_none {b m : Char} (h : ¬m = '\u0301') :
    composePair b m = none := by
  unfold composePair
  rw [if_neg (fun hh => h hh.2), if_neg (fun hh => h hh.2)]

theorem mem_composeGo {c : Char} :
    ∀ f l, c ∈ composeGo f l → c ∈ l ∨ c = '\u00E1' ∨ c = '\u00E9' := by
  intro f
  induction f with
  | zero => intro l h; exact Or.inl h
  | succ f ih =>
    intro l h
    cases l with
    | nil => exact Or.inl h
    | cons b l2 =>
      cases l2 with
      | nil => exact Or.inl h
      | cons m rest =>
        rw [composeGo] at h
        cases hp : composePair b m with
        | some d =>
          rw [hp] at h
          have h2 : c ∈ composeGo f (d :: rest) := h
          rcases ih _ h2 with h3 | h3
          · rcases List.mem_cons.mp h3 with h4 | h4
            · subst h4
              exact Or.inr (composePair_eq_some hp).2
            · exact Or.inl (List.mem_cons_of_mem _ (List.mem_cons_of_mem _ h4))
          · exact Or.inr h3
        | none =>
          rw [hp] at h
          have h2 : c ∈ b :: composeGo f (m :: rest) := h
          rcases List.mem_cons.mp h2 with h3 | h3
          · subst h3
            exact Or.inl (List.mem_cons_self _ _)
          · rcases ih _ h3 with h4 | h4
            · exact Or.inl (List.mem_cons_of_mem _ h4)
            · exact Or.inr h4

theorem composeGo_eq_self {l : List Char} (h : ∀ c ∈ l, ¬c = '\u0301') :
    ∀ f, composeGo f l = l := by
  intro f
  induction f generalizing l with
  | zero => rfl
  | succ f ih =>
    cases l with
    | nil => rfl
    | cons b l2 =>
      cases l2 with
      | nil => rfl
      | cons m rest =>
        have hm : ¬m = '\u0301' :=
          h m (List.mem_cons_of_mem _ (List.mem_cons_self _ _))
        rw [composeGo, composePair_eq_none hm]
        show b :: composeGo f (m :: rest) = b :: m :: rest
        rw [ih fun c hc => h c (List.mem_cons_of_mem _ hc)]

theorem mem_composeList {c : Char} {l : List Char} (h : c ∈ composeList l) :
    c ∈ l ∨ c = '\u00E1' ∨ c = '\u00E9' :=
  mem_composeGo _ _ h

theorem composeList_eq_self {l : List Char} (h : ∀ c ∈ l, ¬c = '\u0301') :
    composeList l = l :=
  composeGo_eq_self h _

theorem nfkcChar_not_mark {c : Char} (h : ¬c = '\u0301') :
    ¬nfkcChar c = '\u0301' := by
  unfold nfkcChar
  by_cases h1 : 0xFF01 ≤ c.toNat ∧ c.toNat ≤ 0xFF5E
  · rw [if_pos h1]
    intro he
    have h2 : (Char.ofNat (c.toNat - 0xFEE0)).toNat = 0x301 := by
      rw [he]
      decide
    rw [char_toNat_ofNat (by left; omega)] at h2
    omega
  · rw [if_neg h1]
    by_cases h2 : c.toNat = 0x3000
    · rw [if_pos h2]
      decide
    · rw [if_neg h2]
      exact h

theorem markFree_forall {s : String} (h : markFree s = true) :
    ∀ c ∈ s.data, ¬c = '\u0301' := by
  intro c hc
  have h2 := List.all_eq_true.mp h c hc
  simpa using h2

theorem isPyWs_of_isNlChar {c : Char} (h : isNlChar c = true) : isPyWs c = true := by
  rcases Bool.or_eq_true_iff.mp h with h1 | h1 <;>
    simp only [decide_eq_true_eq] at h1 <;> subst h1 <;> decide

theorem tryHyph_some {cs : List Char} {w2 : Char} {rest : List Char}
    (h : tryHyph cs = some (w2, rest)) :
    w2 ∈ cs ∧ rest ⊆ cs ∧ ∃ g, g ∈ cs.tail ∧ isNlChar g = true := by
  cases cs with
  | nil => exact absurd h (by simp [tryHyph])
  | cons c0 r0 =>
    rw [tryHyph] at h
    by_cases hc0 : c0 = '-'
    swap
    · rw [if_neg hc0] at h; exact absurd h (by simp)
    rw [if_pos hc0] at h
    subst hc0
    by_cases hg : (r0.takeWhile isPyWs).any isNlChar = true
    · rw [if_pos hg] at h
      obtain ⟨g, hg1, hg2⟩ := List.any_eq_true.mp hg
      have hgr : g ∈ r0 := (List.takeWhile_prefix isPyWs).subset hg1
      cases hd : r0.dropWhile isPyWs with
      | nil => rw [hd] at h; exact absurd h (by simp)
      | cons x tail =>
        rw [hd] at h
        have h2 : (if isWordChar x = true then some (x, tail) else none) = some (w2, rest) := h
        by_cases hw : isWordChar x = true
        · rw [if_pos hw] at h2
          injection h2 with h2
          injection h2 with h1 h3
          subst h1; subst h3
          have hsub : x :: tail ⊆ r0 := by
            rw [← hd]; exact (List.dropWhile_suffix isPyWs).subset
          refine ⟨List.mem_cons_of_mem _ (hsub (List.mem_cons_self _ _)), ?_, g, hgr, hg2⟩
          intro a ha
          exact List.mem_cons_of_mem _ (hsub (List.mem_cons_of_mem _ ha))
        · rw [if_neg hw] at h2; exact absurd h2 (by simp)
    · rw [if_neg hg] at h; exact absurd h (by simp)

theorem tryHyph_none {cs : List Char} (h : ∀ c ∈ cs, isNlChar c = false) :
    tryHyph cs = none := by
  cases hc : tryHyph cs with
  | none => rfl
  | some p =>
    obtain ⟨w2, rest⟩ := p
    obtain ⟨-, -, g, hg1, hg2⟩ := tryHyph_some hc
    have : g ∈ cs := by
      cases cs with
      | nil => exact absurd hg1 (by simp)
      | cons a t => exact List.mem_cons_of_mem _ hg1
    rw [h g this] at hg2
    exact Bool.noConfusion hg2

theorem mem_dehyphGo {c : Char} : ∀ f l, c ∈ dehyphGo f l → c ∈ l := by
  intro f
  induction f with
  | zero => intro l h; exact h
  | succ f ih =>
    intro l h
    cases l with
    | nil => exact h
    | cons c0 cs =>
      rw [dehyphGo] at h
      by_cases hw : isWordChar c0 = true
      · rw [if_pos hw] at h
        cases ht : tryHyph cs with
        | some p =>
          obtain ⟨w2, rest⟩ := p
          rw [ht] at h
          obtain ⟨hmem, hsub, -⟩ := tryHyph_some ht
          rcases List.mem_cons.mp h with h1 | h1
          · rw [h1]; exact List.mem_cons_self _ _
          rcases List.mem_cons.mp h1 with h2 | h2
          · rw [h2]; exact List.mem_cons_of_mem _ hmem
          · exact List.mem_cons_of_mem _ (hsub (ih rest h2))
        | none =>
          rw [ht] at h
          rcases List.mem_cons.mp h with h1 | h1
          · rw [h1]; exact List.mem_cons_self _ _
          · exact List.mem_cons_of_mem _ (ih cs h1)
      · rw [if_neg hw] at h
        rcases List.mem_cons.mp h with h1 | h1
        · rw [h1]; exact List.mem_cons_self _ _
        · exact List.mem_cons_of_mem _ (ih cs h1)

theorem dehyphGo_eq_self {l : List Char} (h : ∀ c ∈ l, isNlChar c = false) :
    ∀ f, dehyphGo f l = l := by
  intro f
  induction f generalizing l with
  | zero => rfl
  | succ f ih =>
    cases l with
    | nil => rfl
    | cons c0 cs =>
      have hcs : ∀ c ∈ cs, isNlChar c = false := fun c hc => h c (List.mem_cons_of_mem _ hc)
      rw [dehyphGo]
      by_cases hw : isWordChar c0 = true
      · rw [if_pos hw, tryHyph_none hcs, ih hcs]
      · rw [if_neg hw, ih hcs]

theorem mem_invisList {c : Char} {l : List Char} (h : c ∈ invisList l) :
    c = ' ' ∨ (c ∈ l ∧ ¬c = '\u200B' ∧ ¬c = '\u00A0') := by
  obtain ⟨a, ha, hfa⟩ := List.mem_filterMap.mp h
  by_cases h1 : a = '\u200B'
  · rw [if_pos h1] at hfa; exact absurd hfa (by simp)
  · rw [if_neg h1] at hfa
    by_cases h2 : a = '\u00A0'
    · rw [if_pos h2] at hfa
      injection hfa with hfa
      left; exact hfa.symm
    · rw [if_neg h2] at hfa
      injection hfa with hfa
      subst hfa
      exact Or.inr ⟨ha, h1, h2⟩

theorem invisList_eq_self {l : List Char}
    (h : ∀ c ∈ l, ¬c = '\u200B' ∧ ¬c = '\u00A0') : invisList l = l := by
  induction l with
  | nil => rfl
  | cons a t ih =>
    obtain ⟨h1, h2⟩ := h a (List.mem_cons_self _ _)
    unfold invisList
    rw [List.filterMap_cons, if_neg h1, if_neg h2]
    exact congrArg (a :: ·) (ih fun c hc => h c (List.mem_cons_of_mem _ hc))

theorem wordsAux_sound {l : List Char} :
    ∀ cur, (∀ c ∈ cur, isPyWs c = false) →
      ∀ w ∈ wordsAux cur l, w ≠ [] ∧ ∀ c ∈ w, isPyWs c = false ∧ (c ∈ cur ∨ c ∈ l) := by
  induction l with
  | nil =>
    intro cur hcur w hw
    rw [wordsAux] at hw
    by_cases hc : cur.isEmpty
    · rw [if_pos hc] at hw; exact absurd hw (by simp)
    · rw [if_neg hc] at hw
      rw [List.mem_singleton.mp hw]
      refine ⟨by simpa [List.isEmpty_iff] using hc, ?_⟩
      intro c hcw
      rw [List.mem_reverse] at hcw
      exact ⟨hcur c hcw, Or.inl hcw⟩
  | cons a t ih =>
    intro cur hcur w hw
    rw [wordsAux] at hw
    by_cases ha : isPyWs a = true
    · rw [if_pos ha] at hw
      by_cases hc : cur.isEmpty
      · rw [if_pos hc] at hw
        obtain ⟨hne, hall⟩ := ih [] (by simp) w hw
        refine ⟨hne, fun c hcw => ?_⟩
        obtain ⟨hws, hor⟩ := hall c hcw
        refine ⟨hws, ?_⟩
        rcases hor with h1 | h1
        · exact absurd h1 (by simp)
        · exact Or.inr (List.mem_cons_of_mem _ h1)
      · rw [if_neg hc] at hw
        rcases List.mem_cons.mp hw with h1 | h1
        · subst h1
          refine ⟨by simpa [List.isEmpty_iff] using hc, ?_⟩
          intro c hcw
          rw [List.mem_reverse] at hcw
          exact ⟨hcur c hcw, Or.inl hcw⟩
        · obtain ⟨hne, hall⟩ := ih [] (by simp) w h1
          refine ⟨hne, fun c hcw => ?_⟩
          obtain ⟨hws, hor⟩ := hall c hcw
          refine ⟨hws, ?_⟩
          rcases hor with h2 | h2
          · exact absurd h2 (by simp)
          · exact Or.inr (List.mem_cons_of_mem _ h2)
    · rw [if_neg ha] at hw
      have hcur2 : ∀ c ∈ a :: cur, isPyWs c = false := by
        intro c hc
        rcases List.mem_cons.mp hc with h1 | h1
        · rw [h1]; simpa using ha
        · exact hcur c h1
      obtain ⟨hne, hall⟩ := ih (a :: cur) hcur2 w hw
      refine ⟨hne, fun c hcw => ?_⟩
      obtain ⟨hws, hor⟩ := hall c hcw
      refine ⟨hws, ?_⟩
      rcases hor with h1 | h1
      · rcases List.mem_cons.mp h1 with h2 | h2
        · rw [h2]; exact Or.inr (List.mem_cons_self _ _)
        · exact Or.inl h2
      · exact Or.inr (List.mem_cons_of_mem _ h1)

theorem intercalate_space_nil : List.intercalate [' '] ([] : List (List Char)) = [] := by
  simp [List.intercalate]

theorem intercalate_space_single (w : List Char) : List.intercalate [' '] [w] = w := by
  simp [List.intercalate]

theorem intercalate_space_cons (w w2 : List Char) (t : List (List Char)) :
    List.intercalate [' '] (w :: w2 :: t) = w ++ ' ' :: List.intercalate [' '] (w2 :: t) := by
  simp [List.intercalate, List.intersperse]

theorem mem_collapseList {c : Char} {l : List Char} (h : c ∈ collapseList l) :
    c = ' ' ∨ (c ∈ l ∧ isPyWs c = false) := by
  unfold collapseList at h
  have hws := wordsAux_sound (l := l) [] (by simp)
  revert h
  generalize hg : wordsAux [] l = ws at hws
  have : ∀ ws2 : List (List Char), (∀ w ∈ ws2, w ≠ [] ∧ ∀ c ∈ w, isPyWs c = false ∧ (c ∈ ([] : List Char) ∨ c ∈ l)) →
      c ∈ List.intercalate [' '] ws2 → c = ' ' ∨ (c ∈ l ∧ isPyWs c = false) := by
    intro ws2
    induction ws2 with
    | nil => intro _ h; rw [intercalate_space_nil] at h; exact absurd h (by simp)
    | cons w ws3 ih =>
      intro hall h
      cases ws3 with
      | nil =>
        rw [intercalate_space_single] at h
        obtain ⟨-, hw⟩ := hall w (List.mem_cons_self _ _)
        obtain ⟨hws2, hor⟩ := hw c h
        rcases hor with h1 | h1
        · exact absurd h1 (by simp)
        · exact Or.inr ⟨h1, hws2⟩
      | cons w2 t =>
        rw [intercalate_space_cons] at h
        rcases List.mem_append.mp h with h1 | h1
        · obtain ⟨-, hw⟩ := hall w (List.mem_cons_self _ _)
          obtain ⟨hws2, hor⟩ := hw c h1
          rcases hor with h2 | h2
          · exact absurd h2 (by simp)
          · exact Or.inr ⟨h2, hws2⟩
        · rcases List.mem_cons.mp h1 with h2 | h2
          · exact Or.inl h2
          · exact ih (fun w hw => hall w (List.mem_cons_of_mem _ hw)) h2
  exact fun h => this ws hws h

theorem wordsAux_word_pref {w : List Char} (hw : ∀ c ∈ w, isPyWs c = false) :
    ∀ rest cur, wordsAux cur (w ++ rest) = wordsAux (w.reverse ++ cur) rest := by
  induction w with
  | nil => intro rest cur; rfl
  | cons a w2 ih =>
    intro rest cur
    have ha : isPyWs a = false := hw a (List.mem_cons_self _ _)
    show wordsAux cur (a :: (w2 ++ rest)) = _
    rw [wordsAux, if_neg (by simp [ha])]
    rw [ih (fun c hc => hw c (List.mem_cons_of_mem _ hc)) rest (a :: cur)]
    congr 1
    rw [List.reverse_cons, List.append_assoc]
    rfl

theorem wordsAux_intercalate {ws : List (List Char)}
    (h : ∀ w ∈ ws, w ≠ [] ∧ ∀ c ∈ w, isPyWs c = false) :
    wordsAux [] (List.intercalate [' '] ws) = ws := by
  induction ws with
  | nil => rw [intercalate_space_nil]; rfl
  | cons w ws2 ih =>
    obtain ⟨hne, hnw⟩ := h w (List.mem_cons_self _ _)
    have hrev : ¬(w.reverse ++ []).isEmpty = true := by
      simp [List.isEmpty_iff, hne]
    cases ws2 with
    | nil =>
      rw [intercalate_space_single]
      rw [show w = w ++ [] by rw [List.append_nil]] at hnw ⊢
      rw [wordsAux_word_pref (by simpa using hnw) [] []]
      rw [wordsAux, if_neg hrev]
      simp
    | cons w2 t =>
      rw [intercalate_space_cons, wordsAux_word_pref hnw (' ' :: List.intercalate [' '] (w2 :: t)) []]
      rw [wordsAux, if_pos (by decide), if_neg hrev]
      rw [ih fun w3 hw3 => h w3 (List.mem_cons_of_mem _ hw3)]
      simp

theorem collapseList_idem (l : List Char) : collapseList (collapseList l) = collapseList l := by
  unfold collapseList
  congr 1
  apply wordsAux_intercalate
  intro w hw
  obtain ⟨hne, hall⟩ := wordsAux_sound (l := l) [] (by simp) w hw
  exact ⟨hne, fun c hc => (hall c hc).1⟩

theorem normSteps_char {s : String} {c : Char} (h : c ∈ (normSteps s).data) :
    nfkcChar c = c ∧ isNlChar c = false ∧ ¬c = '\u200B' ∧ ¬c = '\u00A0' := by
  have h2 : c ∈ collapseList (invisList (dehyphList (composeList (s.data.map nfkcChar)))) := h
  rcases mem_collapseList h2 with h3 | ⟨h3, hws⟩
  · subst h3
    refine ⟨by decide, by decide, by decide, by decide⟩
  · rcases mem_invisList h3 with h4 | ⟨h4, h200, h160⟩
    · subst h4
      refine ⟨by decide, by decide, by decide, by decide⟩
    · have h5 : c ∈ composeList (s.data.map nfkcChar) := mem_dehyphGo _ _ h4
      rcases mem_composeList h5 with h6 | h6 | h6
      · obtain ⟨d, -, rfl⟩ := List.mem_map.mp h6
        refine ⟨nfkcChar_idem d, ?_, h200, h160⟩
        cases hnl : isNlChar (nfkcChar d) with
        | false => rfl
        | true => rw [isPyWs_of_isNlChar hnl] at hws; exact Bool.noConfusion hws
      · subst h6
        refine ⟨by decide, by decide, by decide, by decide⟩
      · subst h6
        refine ⟨by decide, by decide, by decide, by decide⟩

theorem normSteps_markFree {s : String} (h : markFree s = true) :
    markFree (normSteps s) = true := by
  have hall := markFree_forall h
  rw [markFree, List.all_eq_true]
  intro c hc
  simp only [decide_eq_true_eq]
  have h2 : c ∈ collapseList (invisList (dehyphList (composeList (s.data.map nfkcChar)))) := hc
  rcases mem_collapseList h2 with h3 | ⟨h3, -⟩
  · subst h3
    decide
  · rcases mem_invisList h3 with h4 | ⟨h4, -, -⟩
    · subst h4
      decide
    · have h5 : c ∈ composeList (s.data.map nfkcChar) := mem_dehyphGo _ _ h4
      rcases mem_composeList h5 with h6 | h6 | h6
      · obtain ⟨d, hd, rfl⟩ := List.mem_map.mp h6
        exact nfkcChar_not_mark (hall d hd)
      · subst h6
        decide
      · subst h6
        decide

theorem normSteps_fixed {s : String} (hm : markFree s = true) :
    normSteps (normSteps s) = normSteps s := by
  have hchar : ∀ c ∈ (normSteps s).data,
      nfkcChar c = c ∧ isNlChar c = false ∧ ¬c = '\u200B' ∧ ¬c = '\u00A0' :=
    fun c h => normSteps_char h
  have hm2 := markFree_forall (normSteps_markFree hm)
  unfold normSteps
  have h1 : (normSteps s).data.map nfkcChar = (normSteps s).data := by
    have h2 : (normSteps s).data.map nfkcChar = (normSteps s).data.map id :=
      List.map_congr_left fun c hc => (hchar c hc).1
    rw [h2, List.map_id]
  show String.mk (collapseList (invisList (dehyphList (composeList ((normSteps s).data.map nfkcChar))))) = _
  rw [h1, composeList_eq_self hm2]
  rw [show dehyphList (normSteps s).data = (normSteps s).data from
    dehyphGo_eq_self (fun c hc => (hchar c hc).2.1) _]
  rw [invisList_eq_self (fun c hc => (hchar c hc).2.2)]
  have h4 : (normSteps s).data = collapseList (invisList (dehyphList (composeList (s.data.map nfkcChar)))) := rfl
  rw [h4, collapseList_idem]

theorem normalize_string_fixed {s t : String} (hm : markFree s = true)
    (h : normalize_string s = some t) : normalize_string t = some t := by
  simp only [normalize_string] at h ⊢
  by_cases hc : pyLower (normSteps s) = "none" ∨ pyLower (normSteps s) = "null"
      ∨ pyLower (normSteps s) = ""
  · rw [if_pos hc] at h; exact absurd h (by simp)
  · rw [if_neg hc] at h
    injection h with h
    subst h
    rw [normSteps_fixed hm, if_neg hc]

theorem normalize_string_some_props {s t : String} (h : normalize_string s = some t) :
    ¬pyLower t = "none" ∧ ¬pyLower t = "null" ∧ ¬t = "" := by
  simp only [normalize_string] at h
  by_cases hc : pyLower (normSteps s) = "none" ∨ pyLower (normSteps s) = "null"
      ∨ pyLower (normSteps s) = ""
  · rw [if_pos hc] at h; exact absurd h (by simp)
  · rw [if_neg hc] at h
    injection h with h
    subst h
    push_neg at hc
    exact ⟨hc.1, hc.2.1, fun he => hc.2.2 (by rw [he]; rfl)⟩

mutual
theorem clean_dict_idem : ∀ t, markFreeTree t = true → clean_dict (clean_dict t) = clean_dict t
  | .str s, h => by
    have hm : markFree s = true := by simpa [markFreeTree] using h
    cases hn : normalize_string s with
    | none => simp [clean_dict, hn]
    | some t2 => simp [clean_dict, hn, normalize_string_fixed hm hn]
  | .null, _ => rfl
  | .scalar v, _ => rfl
  | .obj fs, h => by
    have h2 : markFreeFields fs = true := by simpa [markFreeTree] using h
    show JTree.obj (cleanDictFields (cleanDictFields fs)) = JTree.obj (cleanDictFields fs)
    rw [cleanDictFields_idem fs h2]
  | .arr ls, h => by
    have h2 : markFreeList ls = true := by simpa [markFreeTree] using h
    show JTree.arr (cleanDictList (cleanDictList ls)) = JTree.arr (cleanDictList ls)
    rw [cleanDictList_idem ls h2]

theorem cleanDictList_idem : ∀ l, markFreeList l = true → cleanDictList (cleanDictList l) = cleanDictList l
  | .nil, _ => rfl
  | .cons t ts, h => by
    have h1 : markFreeTree t = true ∧ markFreeList ts = true := by
      simpa [markFreeList] using h
    show JList.cons (clean_dict (clean_dict t)) (cleanDictList (cleanDictList ts))
        = JList.cons (clean_dict t) (cleanDictList ts)
    rw [clean_dict_idem t h1.1, cleanDictList_idem ts h1.2]

theorem cleanDictFields_idem : ∀ f, markFreeFields f = true → cleanDictFields (cleanDictFields f) = cleanDictFields f
  | .nil, _ => rfl
  | .cons k v fs, h => by
    have h1 : markFreeTree v = true ∧ markFreeFields fs = true := by
      simpa [markFreeFields] using h
    show JFields.cons k (clean_dict (clean_dict v)) (cleanDictFields (cleanDictFields fs))
        = JFields.cons k (clean_dict v) (cleanDictFields fs)
    rw [clean_dict_idem v h1.1, cleanDictFields_idem fs h1.2]
end

mutual
theorem noNullTok_clean_dict : ∀ t, noNullTok (clean_dict t) = true
  | .str s => by
    cases hn : normalize_string s with
    | none => simp [clean_dict, hn, noNullTok]
    | some t2 =>
      obtain ⟨h1, h2, h3⟩ := normalize_string_some_props hn
      simp [clean_dict, hn, noNullTok, h1, h2, h3]
  | .null => rfl
  | .scalar v => rfl
  | .obj fs => by
    show noNullTokFields (cleanDictFields fs) = true
    exact noNullTokFields_clean fs
  | .arr ls => by
    show noNullTokList (cleanDictList ls) = true
    exact noNullTokList_clean ls

theorem noNullTokList_clean : ∀ l, noNullTokList (cleanDictList l) = true
  | .nil => rfl
  | .cons t ts => by
    show (noNullTok (clean_dict t) && noNullTokList (cleanDictList ts)) = true
    rw [noNullTok_clean_dict t, noNullTokList_clean ts]
    rfl

theorem noNullTokFields_clean : ∀ f, noNullTokFields (cleanDictFields f) = true
  | .nil => rfl
  | .cons k v fs => by
    show (noNullTok (clean_dict v) && noNullTokFields (cleanDictFields fs)) = true
    rw [noNullTok_clean_dict v, noNullTokFields_clean fs]
    rfl
end

/-- Counterexample to C7: the detections L1 cleaner
(`clean_string_with_audit`, cited by the claim) does not convert
textual nulls — the string leaf `"None"` survives unchanged in its
output. -/
theorem textual_null_remains_counterexample :
    clean_string_with_audit (JTree.str "None") = JTree.str "None"
    ∧ noNullTok (clean_string_with_audit (JTree.str "None")) = false := by
  constructor
  · rfl
  · rfl

/-- C7 (amended): the methods deep cleaner (`normalize_string` /
`clean_dict`) converts case-insensitive textual nulls (`none`, `null`,
empty after normalization) to true absence, and no textual null token
remains as a string leaf of its output; the detections L1 cleaner
(`clean_string_with_audit`) performs no such conversion. -/
theorem deep_cleaner_null_conversion :
    (∀ s t, normalize_string s = some t →
       ¬pyLower t = "none" ∧ ¬pyLower t = "null" ∧ ¬t = "")
    ∧ (∀ u, noNullTok (clean_dict u) = true)
    ∧ (∀ s, pyLower (normSteps s) = "none" ∨ pyLower (normSteps s) = "null"
        ∨ normSteps s = "" → normalize_string s = none) := by
  refine ⟨fun _ _ h => normalize_string_some_props h, noNullTok_clean_dict, ?_⟩
  intro s h
  simp only [normalize_string]
  rw [if_pos ?_]
  rcases h with h | h | h
  · exact Or.inl h
  · exact Or.inr (Or.inl h)
  · exact Or.inr (Or.inr (by rw [h]; rfl))

/-- Witness for C7 (amended): a surviving leaf carries no null token,
and the blank-padded textual null `" None "` becomes absence. -/
theorem deep_cleaner_null_conversion_witness :
    (¬pyLower "Method" = "none" ∧ ¬pyLower "Method" = "null" ∧ ¬("Method" : String) = "")
    ∧ normalize_string " None " = none := by
  constructor
  · exact deep_cleaner_null_conversion.1 "Meth-\n od" "Method" (by rfl)
  · exact deep_cleaner_null_conversion.2.2 " None " (Or.inl (by rfl))

/-! ## Lemmas: identity-graph indices (toward C5 and C10) -/

theorem dedupFirstAux_mem {x : String} : ∀ seen l, x ∈ dedupFirstAux seen l ↔ (x ∈ l ∧ ¬x ∈ seen) := by
  intro seen l
  induction l generalizing seen with
  | nil => simp [dedupFirstAux]
  | cons a t ih =>
    rw [dedupFirstAux]
    by_cases ha : a ∈ seen
    · rw [if_pos ha, ih]
      constructor
      · rintro ⟨h1, h2⟩
        exact ⟨List.mem_cons_of_mem _ h1, h2⟩
      · rintro ⟨h1, h2⟩
        rcases List.mem_cons.mp h1 with h3 | h3
        · subst h3; exact absurd ha h2
        · exact ⟨h3, h2⟩
    · rw [if_neg ha]
      constructor
      · intro h
        rcases List.mem_cons.mp h with h1 | h1
        · subst h1; exact ⟨List.mem_cons_self _ _, ha⟩
        · obtain ⟨h2, h3⟩ := (ih (a :: seen)).mp h1
          refine ⟨List.mem_cons_of_mem _ h2, fun hx => h3 (List.mem_cons_of_mem _ hx)⟩
      · rintro ⟨h1, h2⟩
        rcases List.mem_cons.mp h1 with h3 | h3
        · subst h3; exact List.mem_cons_self _ _
        · by_cases hxa : x = a
          · subst hxa; exact List.mem_cons_self _ _
          · refine List.mem_cons_of_mem _ ((ih (a :: seen)).mpr ⟨h3, ?_⟩)
            intro hx
            rcases List.mem_cons.mp hx with h4 | h4
            · exact hxa h4
            · exact h2 h4

theorem dedupFirst_mem {x : String} {l : List String} : x ∈ dedupFirst l ↔ x ∈ l := by
  unfold dedupFirst
  rw [dedupFirstAux_mem]
  simp

theorem dedupFirstAux_nodup : ∀ seen l, (dedupFirstAux seen l).Nodup := by
  intro seen l
  induction l generalizing seen with
  | nil => exact List.nodup_nil
  | cons a t ih =>
    rw [dedupFirstAux]
    by_cases ha : a ∈ seen
    · rw [if_pos ha]; exact ih seen
    · rw [if_neg ha]
      refine List.nodup_cons.mpr ⟨?_, ih (a :: seen)⟩
      intro hmem
      exact ((dedupFirstAux_mem _ _).mp hmem).2 (List.mem_cons_self _ _)

theorem dedupFirst_nodup (l : List String) : (dedupFirst l).Nodup :=
  dedupFirstAux_nodup [] l

theorem goldPair_props {r : DRecord} {p : String × String} (h : goldPair r = some p) :
    hasVal p.1 ∧ hasVal p.2 ∧ pyStrip p.1 = p.1 ∧ pyStrip p.2 = p.2
      ∧ p.1 = pyStrip (pyStr r.CAS_number) ∧ p.2 = pyStrip (pyStr r.compound_english_name) := by
  unfold goldPair at h
  by_cases hc : hasVal (pyStrip (pyStr r.CAS_number)) ∧ hasVal (pyStrip (pyStr r.compound_english_name))
  · rw [if_pos hc] at h
    injection h with h
    subst h
    exact ⟨hc.1, hc.2, pyStrip_idem _, pyStrip_idem _, rfl, rfl⟩
  · rw [if_neg hc] at h
    exact absurd h (by simp)

theorem goldPair_some_iff {r : DRecord} :
    (∃ p, goldPair r = some p)
      ↔ (hasVal (pyStrip (pyStr r.CAS_number)) ∧ hasVal (pyStrip (pyStr r.compound_english_name))) := by
  unfold goldPair
  by_cases hc : hasVal (pyStrip (pyStr r.CAS_number)) ∧ hasVal (pyStrip (pyStr r.compound_english_name))
  · rw [if_pos hc]; simpa using hc
  · rw [if_neg hc]; simpa using hc

theorem complete_record_gold {n2c c2n : String → List String} {r : DRecord} {p : String × String}
    (h : goldPair r = some p) : complete_record n2c c2n r = r := by
  obtain ⟨hc, hn⟩ : hasVal (pyStrip (pyStr r.CAS_number))
      ∧ hasVal (pyStrip (pyStr r.compound_english_name)) :=
    goldPair_some_iff.mp ⟨p, h⟩
  simp [complete_record, hc, hn]

theorem mem_nameToCas {l1 : List DRecord} {k c : String} :
    c ∈ nameToCas l1 k ↔ ∃ p, p ∈ goldPairs l1 ∧ pyLower p.2 = k ∧ p.1 = c := by
  unfold nameToCas
  rw [dedupFirst_mem, List.mem_filterMap]
  constructor
  · rintro ⟨p, hp, hfp⟩
    by_cases hk : pyLower p.2 = k
    · rw [if_pos hk] at hfp
      injection hfp with hfp
      exact ⟨p, hp, hk, hfp⟩
    · rw [if_neg hk] at hfp
      exact absurd hfp (by simp)
  · rintro ⟨p, hp, hk, hc⟩
    exact ⟨p, hp, by rw [if_pos hk, hc]⟩

theorem mem_casToNames {l1 : List DRecord} {cas n : String} :
    n ∈ casToNames l1 cas ↔ ∃ p, p ∈ goldPairs l1 ∧ p.1 = cas ∧ p.2 = n := by
  unfold casToNames
  rw [dedupFirst_mem, List.mem_filterMap]
  constructor
  · rintro ⟨p, hp, hfp⟩
    by_cases hk : p.1 = cas
    · rw [if_pos hk] at hfp
      injection hfp with hfp
      exact ⟨p, hp, hk, hfp⟩
    · rw [if_neg hk] at hfp
      exact absurd hfp (by simp)
  · rintro ⟨p, hp, hk, hn⟩
    exact ⟨p, hp, by rw [if_pos hk, hn]⟩

theorem nameToCas_nodup (l1 : List DRecord) (k : String) : (nameToCas l1 k).Nodup :=
  dedupFirst_nodup _

theorem not_hasVal_lower {s : String} (h : ¬hasVal s) :
    pyLower s = "" ∨ pyLower s = "none" ∨ pyLower s = "null" := by
  rcases not_hasVal_iff.mp h with h1 | h1 | h1
  · left; rw [h1]; rfl
  · right; left; exact h1
  · right; right; exact h1

theorem nameToCas_badkey {l1 : List DRecord} {k : String}
    (hk : k = "" ∨ k = "none" ∨ k = "null") : nameToCas l1 k = [] := by
  rw [List.eq_nil_iff_forall_not_mem]
  intro c hc
  obtain ⟨p, hp, hkey, -⟩ := mem_nameToCas.mp hc
  obtain ⟨r, -, hgp⟩ := List.mem_filterMap.mp hp
  obtain ⟨-, hn, -, -, -, -⟩ := goldPair_props hgp
  rcases hk with h1 | h1 | h1
  · rw [h1] at hkey
    exact hn.1 (pyLower_eq_empty_iff.mp hkey)
  · rw [h1] at hkey
    exact hn.2.1 hkey
  · rw [h1] at hkey
    exact hn.2.2 hkey

theorem nameToCas_of_not_hasVal {l1 : List DRecord} {name : String} (h : ¬hasVal name) :
    nameToCas l1 (pyLower name) = [] :=
  nameToCas_badkey (not_hasVal_lower h)

theorem casToNames_of_not_hasVal {l1 : List DRecord} {cas : String} (h : ¬hasVal cas) :
    casToNames l1 cas = [] := by
  rw [List.eq_nil_iff_forall_not_mem]
  intro n hn
  obtain ⟨p, hp, hkey, -⟩ := mem_casToNames.mp hn
  obtain ⟨r, -, hgp⟩ := List.mem_filterMap.mp hp
  obtain ⟨hc, -, -, -, -, -⟩ := goldPair_props hgp
  rw [hkey] at hc
  exact h hc

theorem nameToCas_elem_props {l1 : List DRecord} {k c : String} (h : c ∈ nameToCas l1 k) :
    hasVal c ∧ pyStrip c = c := by
  obtain ⟨p, hp, -, hc⟩ := mem_nameToCas.mp h
  obtain ⟨r, -, hgp⟩ := List.mem_filterMap.mp hp
  obtain ⟨h1, -, h2, -, -, -⟩ := goldPair_props hgp
  rw [← hc]
  exact ⟨h1, h2⟩

theorem casToNames_elem_props {l1 : List DRecord} {cas n : String} (h : n ∈ casToNames l1 cas) :
    hasVal n ∧ pyStrip n = n := by
  obtain ⟨p, hp, -, hn⟩ := mem_casToNames.mp h
  obtain ⟨r, -, hgp⟩ := List.mem_filterMap.mp hp
  obtain ⟨-, h1, -, h2, -, -⟩ := goldPair_props hgp
  rw [← hn]
  exact ⟨h1, h2⟩

theorem minLen_eq_none {l : List String} : minLen l = none ↔ l = [] := by
  cases l with
  | nil => simp [minLen]
  | cons x xs => simp [minLen]

theorem goldPair_set_cas (r : DRecord) (c : String) :
    goldPair { r with CAS_number := some c }
      = if hasVal (pyStrip c) ∧ hasVal (pyStrip (pyStr r.compound_english_name)) then
          some (pyStrip c, pyStrip (pyStr r.compound_english_name))
        else none := rfl

theorem goldPair_set_name (r : DRecord) (n : String) :
    goldPair { r with compound_english_name := some n }
      = if hasVal (pyStrip (pyStr r.CAS_number)) ∧ hasVal (pyStrip n) then
          some (pyStrip (pyStr r.CAS_number), pyStrip n)
        else none := rfl

theorem two_mem_shape {α : Type} {l : List α} {a b : α}
    (ha : a ∈ l) (hb : b ∈ l) (hab : ¬a = b) : ∃ x y t, l = x :: y :: t := by
  cases l with
  | nil => exact absurd ha (by simp)
  | cons x t =>
    cases t with
    | nil =>
      rw [List.mem_singleton.mp ha, List.mem_singleton.mp hb] at hab
      exact absurd rfl hab
    | cons y t2 => exact ⟨x, y, t2, rfl⟩

theorem goldPair_complete {l1 : List DRecord} {r : DRecord} {p : String × String}
    (hr : r ∈ l1)
    (h : goldPair (complete_record (nameToCas l1) (casToNames l1) r) = some p) :
    p.1 ∈ nameToCas l1 (pyLower p.2) := by
  by_cases hc : hasVal (pyStrip (pyStr r.CAS_number)) <;>
    by_cases hn : hasVal (pyStrip (pyStr r.compound_english_name))
  · -- both present: the record is unchanged and its own pair is an edge
    have hgp : goldPair r = some (pyStrip (pyStr r.CAS_number), pyStrip (pyStr r.compound_english_name)) := by
      unfold goldPair
      rw [if_pos ⟨hc, hn⟩]
    have hfr : complete_record (nameToCas l1) (casToNames l1) r = r := by
      simp [complete_record, hc, hn]
    rw [hfr, hgp] at h
    injection h with h
    subst h
    exact mem_nameToCas.mpr ⟨_, List.mem_filterMap.mpr ⟨r, hr, hgp⟩, rfl, rfl⟩
  · -- CAS present, name missing: a name fill uses an existing edge
    cases hm : minLen (casToNames l1 (pyStrip (pyStr r.CAS_number))) with
    | none =>
      have hfr : complete_record (nameToCas l1) (casToNames l1) r = r := by
        simp [complete_record, hc, hn, hm]
      rw [hfr] at h
      unfold goldPair at h
      rw [if_neg (fun hcn => hn hcn.2)] at h
      exact absurd h (by simp)
    | some m =>
      have hmem : m ∈ casToNames l1 (pyStrip (pyStr r.CAS_number)) := minLen_mem hm
      obtain ⟨hvm, hsm⟩ := casToNames_elem_props hmem
      have hfr : complete_record (nameToCas l1) (casToNames l1) r
          = { r with compound_english_name := some m } := by
        simp [complete_record, hc, hn, hm]
      rw [hfr, goldPair_set_name] at h
      rw [show pyStrip m = m from hsm] at h
      rw [if_pos ⟨hc, hvm⟩] at h
      injection h with h
      subst h
      obtain ⟨p2, hp2, hk2, hn2⟩ := mem_casToNames.mp hmem
      exact mem_nameToCas.mpr ⟨p2, hp2, by rw [hn2], hk2⟩
  · -- CAS missing, name present: a CAS fill takes its value from the index
    cases heq : nameToCas l1 (pyLower (pyStrip (pyStr r.compound_english_name))) with
    | nil =>
      have hfr : complete_record (nameToCas l1) (casToNames l1) r = r := by
        simp [complete_record, hc, hn, heq]
      rw [hfr] at h
      unfold goldPair at h
      rw [if_neg (fun hcn => hc hcn.1)] at h
      exact absurd h (by simp)
    | cons c1 tl =>
      cases tl with
      | nil =>
        have hc1 : c1 ∈ nameToCas l1 (pyLower (pyStrip (pyStr r.compound_english_name))) := by
          rw [heq]; exact List.mem_singleton.mpr rfl
        obtain ⟨hvc1, hsc1⟩ := nameToCas_elem_props hc1
        have hfr : complete_record (nameToCas l1) (casToNames l1) r
            = { r with CAS_number := some c1 } := by
          simp [complete_record, hc, hn, heq]
        rw [hfr, goldPair_set_cas] at h
        rw [show pyStrip c1 = c1 from hsc1] at h
        rw [if_pos ⟨hvc1, hn⟩] at h
        injection h with h
        subst h
        exact hc1
      | cons c2 tl2 =>
        have hfr : complete_record (nameToCas l1) (casToNames l1) r = r := by
          simp [complete_record, hc, hn, heq]
        rw [hfr] at h
        unfold goldPair at h
        rw [if_neg (fun hcn => hc hcn.1)] at h
        exact absurd h (by simp)
  · -- both missing: nothing fires
    have hfr : complete_record (nameToCas l1) (casToNames l1) r = r := by
      have hnil : minLen (casToNames l1 (pyStrip (pyStr r.CAS_number))) = none := by
        rw [casToNames_of_not_hasVal hc]; rfl
      simp [complete_record, hc, hn, nameToCas_of_not_hasVal hn, hnil]
    rw [hfr] at h
    unfold goldPair at h
    rw [if_neg (fun hcn => hc hcn.1)] at h
    exact absurd h (by simp)

theorem mem_nameToCas_complete (l1 : List DRecord) (k c : String) :
    c ∈ nameToCas (complete_records l1) k ↔ c ∈ nameToCas l1 k := by
  constructor
  · intro h
    obtain ⟨p, hp, hk, hc⟩ := mem_nameToCas.mp h
    obtain ⟨r2, hr2, hgp⟩ := List.mem_filterMap.mp hp
    obtain ⟨r, hr, rfl⟩ := List.mem_map.mp hr2
    have h2 := goldPair_complete hr hgp
    rw [hk, hc] at h2
    exact h2
  · intro h
    obtain ⟨p, hp, hk, hc⟩ := mem_nameToCas.mp h
    obtain ⟨r, hr, hgp⟩ := List.mem_filterMap.mp hp
    apply mem_nameToCas.mpr
    refine ⟨p, List.mem_filterMap.mpr ⟨complete_record (nameToCas l1) (casToNames l1) r, ?_, ?_⟩, hk, hc⟩
    · exact List.mem_map.mpr ⟨r, hr, rfl⟩
    · rw [@complete_record_gold (nameToCas l1) (casToNames l1) r p hgp]
      exact hgp

theorem casToNames_complete_nil (l1 : List DRecord) (cas : String) :
    casToNames (complete_records l1) cas = [] ↔ casToNames l1 cas = [] := by
  constructor
  · intro h
    rw [List.eq_nil_iff_forall_not_mem] at h ⊢
    intro n hn
    obtain ⟨p, hp, hk, hn2⟩ := mem_casToNames.mp hn
    obtain ⟨r, hr, hgp⟩ := List.mem_filterMap.mp hp
    apply h n
    apply mem_casToNames.mpr
    refine ⟨p, List.mem_filterMap.mpr ⟨complete_record (nameToCas l1) (casToNames l1) r, ?_, ?_⟩, hk, hn2⟩
    · exact List.mem_map.mpr ⟨r, hr, rfl⟩
    · rw [@complete_record_gold (nameToCas l1) (casToNames l1) r p hgp]
      exact hgp
  · intro h
    rw [List.eq_nil_iff_forall_not_mem] at h ⊢
    intro n hn
    obtain ⟨p, hp, hk, -⟩ := mem_casToNames.mp hn
    obtain ⟨r2, hr2, hgp⟩ := List.mem_filterMap.mp hp
    obtain ⟨r, hr, rfl⟩ := List.mem_map.mp hr2
    have h2 := goldPair_complete hr hgp
    obtain ⟨q, hq, -, hq1⟩ := mem_nameToCas.mp h2
    exact h q.2 (mem_casToNames.mpr ⟨q, hq, by rw [hq1, hk], rfl⟩)

theorem nameToCas_complete_nil (l1 : List DRecord) (k : String)
    (h : nameToCas l1 k = []) : nameToCas (complete_records l1) k = [] := by
  rw [List.eq_nil_iff_forall_not_mem] at h ⊢
  intro c hc
  exact h c ((mem_nameToCas_complete l1 k c).mp hc)

theorem complete_record_stable {l1 : List DRecord} {r : DRecord} (hr : r ∈ l1) :
    complete_record (nameToCas (complete_records l1)) (casToNames (complete_records l1))
        (complete_record (nameToCas l1) (casToNames l1) r)
      = complete_record (nameToCas l1) (casToNames l1) r := by
  by_cases hc : hasVal (pyStrip (pyStr r.CAS_number)) <;>
    by_cases hn : hasVal (pyStrip (pyStr r.compound_english_name))
  · -- both present: unchanged in both passes
    have hfr : complete_record (nameToCas l1) (casToNames l1) r = r := by
      simp [complete_record, hc, hn]
    rw [hfr]
    simp [complete_record, hc, hn]
  · -- CAS present, name missing
    cases hm : minLen (casToNames l1 (pyStrip (pyStr r.CAS_number))) with
    | none =>
      have hnil : casToNames l1 (pyStrip (pyStr r.CAS_number)) = [] := minLen_eq_none.mp hm
      have hfr : complete_record (nameToCas l1) (casToNames l1) r = r := by
        simp [complete_record, hc, hn, hm]
      rw [hfr]
      have hm2 : minLen (casToNames (complete_records l1) (pyStrip (pyStr r.CAS_number))) = none := by
        rw [(casToNames_complete_nil l1 _).mpr hnil]
        rfl
      simp [complete_record, hc, hn, hm2]
    | some m =>
      obtain ⟨hvm, hsm⟩ := casToNames_elem_props (minLen_mem hm)
      have hfr : complete_record (nameToCas l1) (casToNames l1) r
          = { r with compound_english_name := some m } := by
        simp [complete_record, hc, hn, hm]
      rw [hfr]
      have hnm : hasVal (pyStrip (pyStr (some m))) := by
        show hasVal (pyStrip m)
        rw [hsm]
        exact hvm
      simp [complete_record, hc, hnm]
  · -- CAS missing, name present
    cases heq : nameToCas l1 (pyLower (pyStrip (pyStr r.compound_english_name))) with
    | nil =>
      have hfr : complete_record (nameToCas l1) (casToNames l1) r = r := by
        simp [complete_record, hc, hn, heq]
      rw [hfr]
      simp [complete_record, hc, hn, nameToCas_complete_nil l1 _ heq]
    | cons c1 tl =>
      cases tl with
      | nil =>
        have hc1 : c1 ∈ nameToCas l1 (pyLower (pyStrip (pyStr r.compound_english_name))) := by
          rw [heq]; exact List.mem_singleton.mpr rfl
        obtain ⟨hvc1, hsc1⟩ := nameToCas_elem_props hc1
        have hfr : complete_record (nameToCas l1) (casToNames l1) r
            = { r with CAS_number := some c1 } := by
          simp [complete_record, hc, hn, heq]
        rw [hfr]
        have hcm : hasVal (pyStrip (pyStr (some c1))) := by
          show hasVal (pyStrip c1)
          rw [hsc1]
          exact hvc1
        simp [complete_record, hcm, hn]
      | cons c2 tl2 =>
        have hfr : complete_record (nameToCas l1) (casToNames l1) r = r := by
          simp [complete_record, hc, hn, heq]
        rw [hfr]
        have hnodup := nameToCas_nodup l1 (pyLower (pyStrip (pyStr r.compound_english_name)))
        rw [heq] at hnodup
        have h12 : ¬c1 = c2 := by
          intro h12
          rw [h12] at hnodup
          exact (List.nodup_cons.mp hnodup).1 (List.mem_cons_self _ _)
        have hm1 : c1 ∈ nameToCas (complete_records l1)
            (pyLower (pyStrip (pyStr r.compound_english_name))) := by
          rw [mem_nameToCas_complete, heq]
          exact List.mem_cons_self _ _
        have hm2 : c2 ∈ nameToCas (complete_records l1)
            (pyLower (pyStrip (pyStr r.compound_english_name))) := by
          rw [mem_nameToCas_complete, heq]
          exact List.mem_cons_of_mem _ (List.mem_cons_self _ _)
        obtain ⟨x, y, t, heq2⟩ := two_mem_shape hm1 hm2 h12
        simp [complete_record, hc, hn, heq2]
  · -- both missing
    have hnil1 : minLen (casToNames l1 (pyStrip (pyStr r.CAS_number))) = none := by
      rw [casToNames_of_not_hasVal hc]; rfl
    have hfr : complete_record (nameToCas l1) (casToNames l1) r = r := by
      simp [complete_record, hc, hn, nameToCas_of_not_hasVal hn, hnil1]
    rw [hfr]
    have hnil2 : minLen (casToNames (complete_records l1) (pyStrip (pyStr r.CAS_number))) = none := by
      rw [casToNames_of_not_hasVal hc]; rfl
    simp [complete_record, hc, hn, nameToCas_of_not_hasVal hn, hnil2]

theorem complete_records_idem (l1 : List DRecord) :
    complete_records (complete_records l1) = complete_records l1 := by
  show (complete_records l1).map
      (complete_record (nameToCas (complete_records l1)) (casToNames (complete_records l1)))
    = complete_records l1
  conv_rhs => rw [show complete_records l1 = (complete_records l1).map id from (List.map_id _).symm]
  apply List.map_congr_left
  intro x hx
  obtain ⟨r, hr, rfl⟩ := List.mem_map.mp hx
  exact complete_record_stable hr

/-! ## Lemmas: back-fill maps (toward C5 and C10) -/

theorem name_to_cas_map_some {kb : List CRecord} {k t : String}
    (h : name_to_cas_map kb k = some t) :
    ∃ c, c ∈ kb ∧ pyTruthy c.preferred_name = true ∧ pyTruthy c.cas_number = true
      ∧ pyLower (pyStrip (pyStr c.preferred_name)) = k ∧ t = pyStr c.cas_number := by
  suffices hgen : ∀ acc : Option String,
      kb.foldl (fun acc c =>
        if pyTruthy c.preferred_name ∧ pyTruthy c.cas_number
            ∧ pyLower (pyStrip (pyStr c.preferred_name)) = k
        then some (pyStr c.cas_number) else acc) acc = some t →
      (∃ c, c ∈ kb ∧ pyTruthy c.preferred_name = true ∧ pyTruthy c.cas_number = true
        ∧ pyLower (pyStrip (pyStr c.preferred_name)) = k ∧ t = pyStr c.cas_number)
      ∨ acc = some t by
    rcases hgen none h with h1 | h1
    · exact h1
    · exact absurd h1 (by simp)
  clear h
  intro acc
  induction kb generalizing acc with
  | nil => intro h2; exact Or.inr h2
  | cons c0 kb2 ih =>
    intro h2
    rw [List.foldl_cons] at h2
    have h30 := ih (if pyTruthy c0.preferred_name ∧ pyTruthy c0.cas_number
        ∧ pyLower (pyStrip (pyStr c0.preferred_name)) = k
      then some (pyStr c0.cas_number) else acc) h2
    rcases h30 with h3 | h3
    · obtain ⟨c, hc, hp⟩ := h3
      exact Or.inl ⟨c, List.mem_cons_of_mem _ hc, hp⟩
    · by_cases hc0 : pyTruthy c0.preferred_name = true ∧ pyTruthy c0.cas_number = true
          ∧ pyLower (pyStrip (pyStr c0.preferred_name)) = k
      · rw [if_pos ⟨hc0.1, hc0.2.1, hc0.2.2⟩] at h3
        injection h3 with h3
        exact Or.inl ⟨c0, List.mem_cons_self _ _, hc0.1, hc0.2.1, hc0.2.2, h3.symm⟩
      · rw [if_neg (fun hcc => hc0 ⟨hcc.1, hcc.2.1, hcc.2.2⟩)] at h3
        exact Or.inr h3

theorem cas_to_name_map_some {kb : List CRecord} {k t : String}
    (h : cas_to_name_map kb k = some t) :
    ∃ c, c ∈ kb ∧ pyTruthy c.cas_number = true ∧ pyTruthy c.preferred_name = true
      ∧ pyStrip (pyStr c.cas_number) = k ∧ t = pyStr c.preferred_name := by
  suffices hgen : ∀ acc : Option String,
      kb.foldl (fun acc c =>
        if pyTruthy c.cas_number ∧ pyTruthy c.preferred_name
            ∧ pyStrip (pyStr c.cas_number) = k
        then some (pyStr c.preferred_name) else acc) acc = some t →
      (∃ c, c ∈ kb ∧ pyTruthy c.cas_number = true ∧ pyTruthy c.preferred_name = true
        ∧ pyStrip (pyStr c.cas_number) = k ∧ t = pyStr c.preferred_name)
      ∨ acc = some t by
    rcases hgen none h with h1 | h1
    · exact h1
    · exact absurd h1 (by simp)
  clear h
  intro acc
  induction kb generalizing acc with
  | nil => intro h2; exact Or.inr h2
  | cons c0 kb2 ih =>
    intro h2
    rw [List.foldl_cons] at h2
    have h30 := ih (if pyTruthy c0.cas_number ∧ pyTruthy c0.preferred_name
        ∧ pyStrip (pyStr c0.cas_number) = k
      then some (pyStr c0.preferred_name) else acc) h2
    rcases h30 with h3 | h3
    · obtain ⟨c, hc, hp⟩ := h3
      exact Or.inl ⟨c, List.mem_cons_of_mem _ hc, hp⟩
    · by_cases hc0 : pyTruthy c0.cas_number = true ∧ pyTruthy c0.preferred_name = true
          ∧ pyStrip (pyStr c0.cas_number) = k
      · rw [if_pos ⟨hc0.1, hc0.2.1, hc0.2.2⟩] at h3
        injection h3 with h3
        exact Or.inl ⟨c0, List.mem_cons_self _ _, hc0.1, hc0.2.1, hc0.2.2, h3.symm⟩
      · rw [if_neg (fun hcc => hc0 ⟨hcc.1, hcc.2.1, hcc.2.2⟩)] at h3
        exact Or.inr h3

theorem usableStr_iff {s : String} : usableStr s = true ↔ ¬s = "" ∧ ¬pyLower s = "none" := by
  simp [usableStr]

theorem kbClean_mem {kb : List CRecord} (hkb : kbClean kb = true) {c : CRecord} (hc : c ∈ kb) :
    (pyTruthy c.cas_number = true → usableStr (pyStrip (pyStr c.cas_number)) = true)
    ∧ (pyTruthy c.preferred_name = true → usableStr (pyStrip (pyStr c.preferred_name)) = true) := by
  have h := List.all_eq_true.mp hkb c hc
  rw [Bool.and_eq_true] at h
  constructor
  · intro ht
    rcases Bool.or_eq_true_iff.mp h.1 with h1 | h1
    · rw [ht] at h1; exact absurd h1 (by decide)
    · exact h1
  · intro ht
    rcases Bool.or_eq_true_iff.mp h.2 with h1 | h1
    · rw [ht] at h1; exact absurd h1 (by decide)
    · exact h1

theorem pyTruthy_pyStr_ne {o : Option String} (h : pyTruthy o = true) : ¬pyStr o = "" := by
  intro he
  rw [pyTruthy, he] at h
  exact absurd h (by decide)

theorem name_map_props {kb : List CRecord} {k t : String} (hkb : kbClean kb = true)
    (h : name_to_cas_map kb k = some t) :
    ¬t = "" ∧ ¬pyStrip t = "" ∧ ¬pyLower (pyStrip t) = "none" ∧ ¬k = "" ∧ ¬k = "none" := by
  obtain ⟨c, hc, hpn, hpc, hkey, hval⟩ := name_to_cas_map_some h
  obtain ⟨hcasu, hnameu⟩ := kbClean_mem hkb hc
  have hu1 := usableStr_iff.mp (hcasu hpc)
  have hu2 := usableStr_iff.mp (hnameu hpn)
  subst hval
  refine ⟨pyTruthy_pyStr_ne hpc, hu1.1, hu1.2, ?_, ?_⟩
  · rw [← hkey]
    intro he
    exact hu2.1 (pyLower_eq_empty_iff.mp he)
  · rw [← hkey]
    exact hu2.2

theorem cas_map_props {kb : List CRecord} {k t : String} (hkb : kbClean kb = true)
    (h : cas_to_name_map kb k = some t) :
    ¬t = "" ∧ ¬pyStrip t = "" ∧ ¬pyLower (pyStrip t) = "none" ∧ ¬k = "" ∧ ¬pyLower k = "none" := by
  obtain ⟨c, hc, hpc, hpn, hkey, hval⟩ := cas_to_name_map_some h
  obtain ⟨hcasu, hnameu⟩ := kbClean_mem hkb hc
  have hu1 := usableStr_iff.mp (hcasu hpc)
  have hu2 := usableStr_iff.mp (hnameu hpn)
  subst hval
  rw [← hkey]
  exact ⟨pyTruthy_pyStr_ne hpn, hu2.1, hu2.2, hu1.1, hu1.2⟩

theorem backfill_cas_no {kb : List CRecord} {r : DRecord}
    (hga : ¬((pyStrip (pyStr r.CAS_number) = ""
        ∨ pyLower (pyStrip (pyStr r.CAS_number)) = "none")
      ∧ ¬pyStrip (pyStr r.compound_english_name) = "")) :
    backfill_cas kb r = r := by
  simp only [backfill_cas, if_neg hga]

theorem backfill_cas_miss {kb : List CRecord} {r : DRecord}
    (hAm : name_to_cas_map kb (pyLower (pyStrip (pyStr r.compound_english_name))) = none) :
    backfill_cas kb r = r := by
  unfold backfill_cas
  rw [hAm]
  simp

theorem backfill_cas_hit {kb : List CRecord} {r : DRecord} {t : String}
    (hga : (pyStrip (pyStr r.CAS_number) = ""
        ∨ pyLower (pyStrip (pyStr r.CAS_number)) = "none")
      ∧ ¬pyStrip (pyStr r.compound_english_name) = "")
    (hAm : name_to_cas_map kb (pyLower (pyStrip (pyStr r.compound_english_name))) = some t)
    (ht : ¬t = "") :
    backfill_cas kb r = { r with CAS_number := some t } := by
  unfold backfill_cas
  rw [if_pos hga, hAm]
  simp [ht]

theorem backfill_record_no {kb : List CRecord} {r : DRecord}
    (hgb : ¬((pyStrip (pyStr r.compound_english_name) = ""
        ∨ pyLower (pyStrip (pyStr r.compound_english_name)) = "none")
      ∧ ¬pyStrip (pyStr r.CAS_number) = "")) :
    backfill_record kb r = backfill_cas kb r := by
  simp only [backfill_record, if_neg hgb]

theorem backfill_record_miss {kb : List CRecord} {r : DRecord}
    (hBm : cas_to_name_map kb (pyStrip (pyStr r.CAS_number)) = none) :
    backfill_record kb r = backfill_cas kb r := by
  unfold backfill_record
  rw [hBm]
  simp

theorem backfill_record_hit {kb : List CRecord} {r : DRecord} {t : String}
    (hgb : (pyStrip (pyStr r.compound_english_name) = ""
        ∨ pyLower (pyStrip (pyStr r.compound_english_name)) = "none")
      ∧ ¬pyStrip (pyStr r.CAS_number) = "")
    (hBm : cas_to_name_map kb (pyStrip (pyStr r.CAS_number)) = some t)
    (ht : ¬t = "") :
    backfill_record kb r = { backfill_cas kb r with compound_english_name := some t } := by
  unfold backfill_record
  rw [if_pos hgb, hBm]
  simp [ht]

theorem backfill_record_stable {kb : List CRecord} (hkb : kbClean kb = true) (r : DRecord) :
    backfill_record kb (backfill_record kb r) = backfill_record kb r := by
  by_cases hga : (pyStrip (pyStr r.CAS_number) = ""
        ∨ pyLower (pyStrip (pyStr r.CAS_number)) = "none")
      ∧ ¬pyStrip (pyStr r.compound_english_name) = ""
  · cases hAm : name_to_cas_map kb (pyLower (pyStrip (pyStr r.compound_english_name))) with
    | some t =>
      obtain ⟨ht, hst, hlow, hk1, hk2⟩ := name_map_props hkb hAm
      have hgb : ¬((pyStrip (pyStr r.compound_english_name) = ""
          ∨ pyLower (pyStrip (pyStr r.compound_english_name)) = "none")
          ∧ ¬pyStrip (pyStr r.CAS_number) = "") := by
        rintro ⟨h1 | h1, -⟩
        · exact hga.2 h1
        · exact hk2 h1
      have hr1 : backfill_record kb r = { r with CAS_number := some t } := by
        rw [backfill_record_no hgb, backfill_cas_hit hga hAm ht]
      rw [hr1]
      have hga2 : ¬((pyStrip (pyStr ({ r with CAS_number := some t } : DRecord).CAS_number) = ""
          ∨ pyLower (pyStrip (pyStr ({ r with CAS_number := some t } : DRecord).CAS_number)) = "none")
          ∧ ¬pyStrip (pyStr ({ r with CAS_number := some t } : DRecord).compound_english_name) = "") := by
        rintro ⟨h1 | h1, -⟩
        · exact hst h1
        · exact hlow h1
      have hgb2 : ¬((pyStrip (pyStr ({ r with CAS_number := some t } : DRecord).compound_english_name) = ""
          ∨ pyLower (pyStrip (pyStr ({ r with CAS_number := some t } : DRecord).compound_english_name)) = "none")
          ∧ ¬pyStrip (pyStr ({ r with CAS_number := some t } : DRecord).CAS_number) = "") := by
        rintro ⟨h1 | h1, -⟩
        · exact hga.2 h1
        · exact hk2 h1
      rw [backfill_record_no hgb2, backfill_cas_no hga2]
    | none =>
      have hc1 : backfill_cas kb r = r := backfill_cas_miss hAm
      by_cases hgb : (pyStrip (pyStr r.compound_english_name) = ""
          ∨ pyLower (pyStrip (pyStr r.compound_english_name)) = "none")
          ∧ ¬pyStrip (pyStr r.CAS_number) = ""
      · cases hBm : cas_to_name_map kb (pyStrip (pyStr r.CAS_number)) with
        | some t2 =>
          obtain ⟨-, -, -, hk1, hk2⟩ := cas_map_props hkb hBm
          rcases hga.1 with h1 | h1
          · exact absurd h1 hk1
          · exact absurd h1 hk2
        | none =>
          have hr1 : backfill_record kb r = r := by
            rw [backfill_record_miss hBm, hc1]
          rw [hr1, hr1]
      · have hr1 : backfill_record kb r = r := by
          rw [backfill_record_no hgb, hc1]
        rw [hr1, hr1]
  · have hc1 : backfill_cas kb r = r := backfill_cas_no hga
    by_cases hgb : (pyStrip (pyStr r.compound_english_name) = ""
        ∨ pyLower (pyStrip (pyStr r.compound_english_name)) = "none")
        ∧ ¬pyStrip (pyStr r.CAS_number) = ""
    · cases hBm : cas_to_name_map kb (pyStrip (pyStr r.CAS_number)) with
      | some t2 =>
        obtain ⟨ht2, hst2, hlow2, hk1, hk2⟩ := cas_map_props hkb hBm
        have hr1 : backfill_record kb r = { r with compound_english_name := some t2 } := by
          rw [backfill_record_hit hgb hBm ht2, hc1]
        rw [hr1]
        have hga2 : ¬((pyStrip (pyStr ({ r with compound_english_name := some t2 } : DRecord).CAS_number) = ""
            ∨ pyLower (pyStrip (pyStr ({ r with compound_english_name := some t2 } : DRecord).CAS_number)) = "none")
            ∧ ¬pyStrip (pyStr ({ r with compound_english_name := some t2 } : DRecord).compound_english_name) = "") := by
          rintro ⟨h1 | h1, -⟩
          · exact hk1 h1
          · exact hk2 h1
        have hgb2 : ¬((pyStrip (pyStr ({ r with compound_english_name := some t2 } : DRecord).compound_english_name) = ""
            ∨ pyLower (pyStrip (pyStr ({ r with compound_english_name := some t2 } : DRecord).compound_english_name)) = "none")
            ∧ ¬pyStrip (pyStr ({ r with compound_english_name := some t2 } : DRecord).CAS_number) = "") := by
          rintro ⟨h1 | h1, -⟩
          · exact hst2 h1
          · exact hlow2 h1
        rw [backfill_record_no hgb2, backfill_cas_no hga2]
      | none =>
        have hr1 : backfill_record kb r = r := by
          rw [backfill_record_miss hBm, hc1]
        rw [hr1, hr1]
    · have hr1 : backfill_record kb r = r := by
        rw [backfill_record_no hgb, hc1]
      rw [hr1, hr1]

/-- Counterexample to C5: with a registry entry whose CAS value is the
textual `"none"`, the back-fill changes the record again on the second
pass, so BackfillPropagator is not idempotent for every input. -/
theorem backfill_not_idempotent :
    ¬backfill_detections kbDirty (backfill_detections kbDirty [rDirty])
      = backfill_detections kbDirty [rDirty] := by decide

/-- C5 (amended): the CompletionEngine is idempotent for every input
record list; the BackfillPropagator never overwrites a usable CAS or
name (even when the registry maps that identity differently), and it is
idempotent for every detection list whenever every registry CAS and
name value is usable after stripping (nonempty and not the textual
`'none'`) — with a textual-null registry value a second pass can change
a record again. -/
theorem completion_backfill_idempotence :
    (∀ l1, complete_records (complete_records l1) = complete_records l1)
    ∧ (∀ kb dets, kbClean kb = true →
        backfill_detections kb (backfill_detections kb dets) = backfill_detections kb dets)
    ∧ ∀ kb r,
        (¬(pyStrip (pyStr r.CAS_number) = ""
            ∨ pyLower (pyStrip (pyStr r.CAS_number)) = "none") →
          (backfill_record kb r).CAS_number = r.CAS_number)
        ∧ (¬(pyStrip (pyStr r.compound_english_name) = ""
            ∨ pyLower (pyStrip (pyStr r.compound_english_name)) = "none") →
          (backfill_record kb r).compound_english_name = r.compound_english_name) := by
  refine ⟨complete_records_idem, ?_, ?_⟩
  · intro kb dets hkb
    show (backfill_detections kb dets).map (backfill_record kb) = backfill_detections kb dets
    show ((dets.map (backfill_record kb)).map (backfill_record kb)) = dets.map (backfill_record kb)
    rw [List.map_map]
    apply List.map_congr_left
    intro r _
    exact backfill_record_stable hkb r
  · intro kb r
    constructor
    · intro h
      have hga : ¬((pyStrip (pyStr r.CAS_number) = ""
          ∨ pyLower (pyStrip (pyStr r.CAS_number)) = "none")
          ∧ ¬pyStrip (pyStr r.compound_english_name) = "") := fun hcc => h hcc.1
      have hcas : (backfill_record kb r).CAS_number = (backfill_cas kb r).CAS_number := by
        unfold backfill_record
        split
        · split
          · split <;> rfl
          · rfl
        · rfl
      rw [hcas, backfill_cas_no hga]
    · intro h
      have hgb : ¬((pyStrip (pyStr r.compound_english_name) = ""
          ∨ pyLower (pyStrip (pyStr r.compound_english_name)) = "none")
          ∧ ¬pyStrip (pyStr r.CAS_number) = "") := fun hcc => h hcc.1
      rw [backfill_record_no hgb]
      unfold backfill_cas
      split
      · split
        · split <;> rfl
        · rfl
      · rfl

/-- Witness for C5 (amended): back-fill over a clean registry is
idempotent on the dirty record, and a usable CAS is never overwritten
even by the dirty registry. -/
theorem completion_backfill_idempotence_witness :
    backfill_detections kbCleanSample (backfill_detections kbCleanSample [rDirty])
      = backfill_detections kbCleanSample [rDirty]
    ∧ (backfill_record kbDirty sampleRec).CAS_number = sampleRec.CAS_number := by
  constructor
  · exact completion_backfill_idempotence.2.1 kbCleanSample [rDirty] (by decide)
  · exact (completion_backfill_idempotence.2.2 kbDirty sampleRec).1 (by decide)

/-! ## Lemmas and claims: frame conditions (C10) -/

theorem complete_record_frame (n2c c2n : String → List String) (r : DRecord) :
    (complete_record n2c c2n r).method_id = r.method_id
    ∧ (complete_record n2c c2n r).run_config_id = r.run_config_id
    ∧ (complete_record n2c c2n r).source_file = r.source_file
    ∧ (complete_record n2c c2n r).mass_spec_params = r.mass_spec_params
    ∧ (complete_record n2c c2n r).performance_parameters = r.performance_parameters
    ∧ (complete_record n2c c2n r).extra = r.extra
    ∧ (¬(complete_record n2c c2n r).CAS_number = r.CAS_number →
        ¬hasVal (pyStrip (pyStr r.CAS_number))
        ∧ ∃ v, (complete_record n2c c2n r).CAS_number = some v)
    ∧ (¬(complete_record n2c c2n r).compound_english_name = r.compound_english_name →
        ¬hasVal (pyStrip (pyStr r.compound_english_name))
        ∧ ∃ v, (complete_record n2c c2n r).compound_english_name = some v) := by
  by_cases hc : hasVal (pyStrip (pyStr r.CAS_number)) <;>
    by_cases hn : hasVal (pyStrip (pyStr r.compound_english_name))
  · have hres : complete_record n2c c2n r = r := by simp [complete_record, hc, hn]
    rw [hres]
    exact ⟨rfl, rfl, rfl, rfl, rfl, rfl, fun h => absurd rfl h, fun h => absurd rfl h⟩
  · cases hm : minLen (c2n (pyStrip (pyStr r.CAS_number))) with
    | none =>
      have hres : complete_record n2c c2n r = r := by simp [complete_record, hc, hn, hm]
      rw [hres]
      exact ⟨rfl, rfl, rfl, rfl, rfl, rfl, fun h => absurd rfl h, fun h => absurd rfl h⟩
    | some m =>
      have hres : complete_record n2c c2n r = { r with compound_english_name := some m } := by
        simp [complete_record, hc, hn, hm]
      rw [hres]
      exact ⟨rfl, rfl, rfl, rfl, rfl, rfl, fun h => absurd rfl h, fun _ => ⟨hn, m, rfl⟩⟩
  · rcases heq : n2c (pyLower (pyStrip (pyStr r.compound_english_name))) with - | ⟨c, - | ⟨c2, cs⟩⟩
    · have hres : complete_record n2c c2n r = r := by simp [complete_record, hc, hn, heq]
      rw [hres]
      exact ⟨rfl, rfl, rfl, rfl, rfl, rfl, fun h => absurd rfl h, fun h => absurd rfl h⟩
    · have hres : complete_record n2c c2n r = { r with CAS_number := some c } := by
        simp [complete_record, hc, hn, heq]
      rw [hres]
      exact ⟨rfl, rfl, rfl, rfl, rfl, rfl, fun _ => ⟨hc, c, rfl⟩, fun h => absurd rfl h⟩
    · have hres : complete_record n2c c2n r = r := by simp [complete_record, hc, hn, heq]
      rw [hres]
      exact ⟨rfl, rfl, rfl, rfl, rfl, rfl, fun h => absurd rfl h, fun h => absurd rfl h⟩
  · rcases heq : n2c (pyLower (pyStrip (pyStr r.compound_english_name))) with - | ⟨c, - | ⟨c2, cs⟩⟩ <;>
      cases hm : minLen (c2n (pyStrip (pyStr r.CAS_number)))
    · have hres : complete_record n2c c2n r = r := by simp [complete_record, hc, hn, heq, hm]
      rw [hres]
      exact ⟨rfl, rfl, rfl, rfl, rfl, rfl, fun h => absurd rfl h, fun h => absurd rfl h⟩
    · rename_i m
      have hres : complete_record n2c c2n r = { r with compound_english_name := some m } := by
        simp [complete_record, hc, hn, heq, hm]
      rw [hres]
      exact ⟨rfl, rfl, rfl, rfl, rfl, rfl, fun h => absurd rfl h, fun _ => ⟨hn, m, rfl⟩⟩
    · have hres : complete_record n2c c2n r = { r with CAS_number := some c } := by
        simp [complete_record, hc, hn, heq, hm]
      rw [hres]
      exact ⟨rfl, rfl, rfl, rfl, rfl, rfl, fun _ => ⟨hc, c, rfl⟩, fun h => absurd rfl h⟩
    · rename_i m
      have hres : complete_record n2c c2n r
          = { r with CAS_number := some c, compound_english_name := some m } := by
        simp [complete_record, hc, hn, heq, hm]
      rw [hres]
      exact ⟨rfl, rfl, rfl, rfl, rfl, rfl, fun _ => ⟨hc, c, rfl⟩, fun _ => ⟨hn, m, rfl⟩⟩
    · have hres : complete_record n2c c2n r = r := by simp [complete_record, hc, hn, heq, hm]
      rw [hres]
      exact ⟨rfl, rfl, rfl, rfl, rfl, rfl, fun h => absurd rfl h, fun h => absurd rfl h⟩
    · rename_i m
      have hres : complete_record n2c c2n r = { r with compound_english_name := some m } := by
        simp [complete_record, hc, hn, heq, hm]
      rw [hres]
      exact ⟨rfl, rfl, rfl, rfl, rfl, rfl, fun h => absurd rfl h, fun _ => ⟨hn, m, rfl⟩⟩

theorem backfill_cas_frame (kb : List CRecord) (r : DRecord) :
    (backfill_cas kb r).method_id = r.method_id
    ∧ (backfill_cas kb r).run_config_id = r.run_config_id
    ∧ (backfill_cas kb r).source_file = r.source_file
    ∧ (backfill_cas kb r).mass_spec_params = r.mass_spec_params
    ∧ (backfill_cas kb r).performance_parameters = r.performance_parameters
    ∧ (backfill_cas kb r).extra = r.extra
    ∧ (backfill_cas kb r).compound_english_name = r.compound_english_name
    ∧ (¬(backfill_cas kb r).CAS_number = r.CAS_number →
        (pyStrip (pyStr r.CAS_number) = "" ∨ pyLower (pyStrip (pyStr r.CAS_number)) = "none")
        ∧ ∃ v, (backfill_cas kb r).CAS_number = some v) := by
  by_cases hga : (pyStrip (pyStr r.CAS_number) = ""
        ∨ pyLower (pyStrip (pyStr r.CAS_number)) = "none")
      ∧ ¬pyStrip (pyStr r.compound_english_name) = ""
  · cases hAm : name_to_cas_map kb (pyLower (pyStrip (pyStr r.compound_english_name))) with
    | some t =>
      by_cases ht : t = ""
      · have hres : backfill_cas kb r = r := by
          unfold backfill_cas
          rw [if_pos hga, hAm]
          simp [ht]
        rw [hres]
        exact ⟨rfl, rfl, rfl, rfl, rfl, rfl, rfl, fun h => absurd rfl h⟩
      · rw [backfill_cas_hit hga hAm ht]
        exact ⟨rfl, rfl, rfl, rfl, rfl, rfl, rfl, fun _ => ⟨hga.1, t, rfl⟩⟩
    | none =>
      rw [backfill_cas_miss hAm]
      exact ⟨rfl, rfl, rfl, rfl, rfl, rfl, rfl, fun h => absurd rfl h⟩
  · rw [backfill_cas_no hga]
    exact ⟨rfl, rfl, rfl, rfl, rfl, rfl, rfl, fun h => absurd rfl h⟩

theorem backfill_record_frame (kb : List CRecord) (r : DRecord) :
    (backfill_record kb r).method_id = r.method_id
    ∧ (backfill_record kb r).run_config_id = r.run_config_id
    ∧ (backfill_record kb r).source_file = r.source_file
    ∧ (backfill_record kb r).mass_spec_params = r.mass_spec_params
    ∧ (backfill_record kb r).performance_parameters = r.performance_parameters
    ∧ (backfill_record kb r).extra = r.extra
    ∧ (¬(backfill_record kb r).CAS_number = r.CAS_number →
        (pyStrip (pyStr r.CAS_number) = "" ∨ pyLower (pyStrip (pyStr r.CAS_number)) = "none")
        ∧ ∃ v, (backfill_record kb r).CAS_number = some v)
    ∧ (¬(backfill_record kb r).compound_english_name = r.compound_english_name →
        (pyStrip (pyStr r.compound_english_name) = ""
          ∨ pyLower (pyStrip (pyStr r.compound_english_name)) = "none")
        ∧ ∃ v, (backfill_record kb r).compound_english_name = some v) := by
  obtain ⟨hf1, hf2, hf3, hf4, hf5, hf6, hfn, hfc⟩ := backfill_cas_frame kb r
  by_cases hgb : (pyStrip (pyStr r.compound_english_name) = ""
        ∨ pyLower (pyStrip (pyStr r.compound_english_name)) = "none")
      ∧ ¬pyStrip (pyStr r.CAS_number) = ""
  · cases hBm : cas_to_name_map kb (pyStrip (pyStr r.CAS_number)) with
    | some t =>
      by_cases ht : t = ""
      · have hres : backfill_record kb r = backfill_cas kb r := by
          unfold backfill_record
          rw [if_pos hgb, hBm]
          simp [ht]
        rw [hres]
        refine ⟨hf1, hf2, hf3, hf4, hf5, hf6, hfc, fun h => absurd hfn h⟩
      · rw [backfill_record_hit hgb hBm ht]
        refine ⟨hf1, hf2, hf3, hf4, hf5, hf6, hfc, fun _ => ⟨hgb.1, t, rfl⟩⟩
    | none =>
      rw [backfill_record_miss hBm]
      exact ⟨hf1, hf2, hf3, hf4, hf5, hf6, hfc, fun h => absurd hfn h⟩
  · rw [backfill_record_no hgb]
    exact ⟨hf1, hf2, hf3, hf4, hf5, hf6, hfc, fun h => absurd hfn h⟩

/-- Counterexample to C10: completion replaces the CAS value of a
record whose CAS field is the non-null textual string `"None"` — the
field changes although it was present (non-null), so the two identity
fields do not change only from absent to present. -/
theorem absent_to_present_counterexample :
    (complete_records [recAflatoxinGold, recTextualNullCas])[1]?
      = some { recTextualNullCas with CAS_number := some "1162-65-8" }
    ∧ ¬recTextualNullCas.CAS_number = none := by
  constructor
  · decide
  · decide

/-- C10 (amended): CompletionEngine and BackfillPropagator return lists
of the same length in the same order; every output record agrees with
its input record on every field other than `CAS_number` and
`compound_english_name`, and those two change only when the input value
was absent or a textual null (`''`/`'none'`/`'null'` for completion,
`''`/`'none'` for back-fill, after stripping), and only to a non-null
value. -/
theorem frame_conditions :
    (∀ l1 : List DRecord, (complete_records l1).length = l1.length
      ∧ ∀ (i : Nat) r r2, l1[i]? = some r → (complete_records l1)[i]? = some r2 →
          r2.method_id = r.method_id ∧ r2.run_config_id = r.run_config_id
          ∧ r2.source_file = r.source_file ∧ r2.mass_spec_params = r.mass_spec_params
          ∧ r2.performance_parameters = r.performance_parameters ∧ r2.extra = r.extra
          ∧ (¬r2.CAS_number = r.CAS_number →
              ¬hasVal (pyStrip (pyStr r.CAS_number)) ∧ ∃ v, r2.CAS_number = some v)
          ∧ (¬r2.compound_english_name = r.compound_english_name →
              ¬hasVal (pyStrip (pyStr r.compound_english_name))
              ∧ ∃ v, r2.compound_english_name = some v))
    ∧ ∀ (kb : List CRecord) (dets : List DRecord),
        (backfill_detections kb dets).length = dets.length
        ∧ ∀ (i : Nat) r r2, dets[i]? = some r → (backfill_detections kb dets)[i]? = some r2 →
            r2.method_id = r.method_id ∧ r2.run_config_id = r.run_config_id
            ∧ r2.source_file = r.source_file ∧ r2.mass_spec_params = r.mass_spec_params
            ∧ r2.performance_parameters = r.performance_parameters ∧ r2.extra = r.extra
            ∧ (¬r2.CAS_number = r.CAS_number →
                (pyStrip (pyStr r.CAS_number) = ""
                  ∨ pyLower (pyStrip (pyStr r.CAS_number)) = "none")
                ∧ ∃ v, r2.CAS_number = some v)
            ∧ (¬r2.compound_english_name = r.compound_english_name →
                (pyStrip (pyStr r.compound_english_name) = ""
                  ∨ pyLower (pyStrip (pyStr r.compound_english_name)) = "none")
                ∧ ∃ v, r2.compound_english_name = some v) := by
  constructor
  · intro l1
    constructor
    · show (l1.map (complete_record (nameToCas l1) (casToNames l1))).length = l1.length
      rw [List.length_map]
    · intro i r r2 h1 h2
      have h3 : (complete_records l1)[i]?
          = Option.map (complete_record (nameToCas l1) (casToNames l1)) l1[i]? :=
        List.getElem?_map _ _ _
      rw [h2, h1] at h3
      injection h3 with h3
      rw [h3]
      exact complete_record_frame (nameToCas l1) (casToNames l1) r
  · intro kb dets
    constructor
    · show (dets.map (backfill_record kb)).length = dets.length
      rw [List.length_map]
    · intro i r r2 h1 h2
      have h3 : (backfill_detections kb dets)[i]?
          = Option.map (backfill_record kb) dets[i]? :=
        List.getElem?_map _ _ _
      rw [h2, h1] at h3
      injection h3 with h3
      rw [h3]
      exact backfill_record_frame kb r

/-- Witness for C10 (amended) on scenario-B records: the length law and
one index-wise frame fact, with the CAS fill hitting an absent field. -/
theorem frame_conditions_witness :
    (complete_records [recXyz1, recXyz3]).length = 2
    ∧ ({ recXyz3 with CAS_number := some "111-1-1" } : DRecord).mass_spec_params
        = recXyz3.mass_spec_params := by
  constructor
  · exact (frame_conditions.1 [recXyz1, recXyz3]).1
  · exact ((frame_conditions.1 [recXyz1, recXyz3]).2 1 recXyz3
      { recXyz3 with CAS_number := some "111-1-1" } (by decide) (by decide)).2.2.2.1
